import Mathlib

/-!
TimeVault: a shallow embedding of `protocols/timevault/timevault.go`

The protocol instance of `timevault.go` is embedded as pure functions on an explicit
node state.  The pieces the Go file takes from outside are parameters:

* the elliptic-curve suite (`abstract.Suite`) is a record `Suite` of operations;
* the `poly` package (receiver, deals, shared secrets) is a record `Poly`;
* the verdict of `tv.Broadcast` is a function `Msg → Option String`
  (`none` is Go's `nil` error);
* fresh randomness (ephemeral scalar, padding of `Pick`, the constructed deal) is an
  argument of the function that draws it;
* a receive from a channel is an argument that says what the receive yields, `none`
  when no value ever arrives.

Go maps are association lists.  Every statement below quantifies over all such
lists, hence over every iteration order a Go `range` may choose.
-/

namespace Cothority

/-! ## Data model -/

/-- Type of shared secret identifiers (`type SID string`). -/
abbrev SID := String

/-- Identifier tag for TimeVault shared secrets (`TVSS SID = "TVSS"`). -/
def TVSS : SID := "TVSS"

/-- Go `[]byte`. -/
abbrev Bytes := List (Fin 256)

/-- Lookup in a Go map kept as an association list: `v, ok := m[k]`. -/
def mapGet {κ ν : Type} [DecidableEq κ] : List (κ × ν) → κ → Option ν
  | [], _ => none
  | (k', v) :: m, k => if k' = k then some v else mapGet m k

/-- Assignment in a Go map kept as an association list: `m[k] = v`. -/
def mapSet {κ ν : Type} [DecidableEq κ] (m : List (κ × ν)) (k : κ) (v : ν) : List (κ × ν) :=
  (k, v) :: m.filter (fun e => decide (e.1 ≠ k))

/-- Result of a call that may return a value, return an error, stay blocked on a channel
receive, or hit a nil dereference. -/
inductive Outcome (α : Type) where
  | ok (a : α)
  | error (e : String)
  | blocked
  | panic
  deriving DecidableEq, Repr

/-- The `(value, error)` pair of a Go call as an `Outcome`. -/
def Outcome.ofExcept {α : Type} : Except String α → Outcome α
  | .ok a => .ok a
  | .error e => .error e

/-- Threshold parameters `poly.Threshold{T, R, N}`. -/
structure Threshold where
  T : Int
  R : Int
  N : Int
  deriving DecidableEq, Repr

/-- The fields of `poly.SharedSecret` the file reads: `Pub.SecretCommit()` (the joint public
point), `Share` and `Index`. -/
structure SharedSecret (P S : Type) where
  pub : P
  share : S
  index : Int
  deriving DecidableEq, Repr

/-- Registry entry `Secret`.  The counter `numConfs` is a Go `int`, taken as 64 bits wide:
its value is an integer and the increment `numConfs++` wraps around (`incInt`). -/
structure Secret (P S D Rv : Type) where
  secret : Option (SharedSecret P S)
  receiver : Rv
  deals : List (Int × D)
  numConfs : Int
  duration : Int
  expired : Bool
  deriving DecidableEq, Repr

/-- The `poly.PriShares` accumulator: thresholds given to `Empty` and the shares set so far. -/
structure PriShares (S : Type) where
  t : Int
  n : Int
  shares : List (Int × S)
  deriving DecidableEq, Repr

/-- Accumulator `RecoveredSecret`. -/
structure RecoveredSecret (S : Type) where
  priShares : PriShares S
  numShares : Int
  deriving DecidableEq, Repr

/-- Messages the file broadcasts. -/
inductive Msg where
  | SecInitMsg (src : Int) (sid : SID) (deal : Bytes) (duration : Int)
  | SecConfMsg (src : Int) (sid : SID)
  | RevInitMsg (src : Int) (sid : SID)
  deriving DecidableEq, Repr

/-- State of one protocol instance.  `index` is `tv.Node.Index()`; `sent` records every
call of `tv.Broadcast` in order; `warnings` records every `dbg.Warn`; `timers` holds the
timers armed by `time.NewTimer` that have not fired yet. -/
structure TimeVault (P S D Rv : Type) where
  index : Int
  info : Threshold
  secrets : List (SID × Secret P S D Rv)
  recoveredSecrets : Option (List (SID × RecoveredSecret S))
  sent : List Msg
  warnings : List String
  timers : List (SID × Int)
  deriving DecidableEq, Repr

/-- Operations of `abstract.Suite` the file uses.  `mul p s` is `Point().Mul(p, s)`,
`base` the generator that `Mul(nil, s)` multiplies, `pick msg ρ` is `Point().Pick(msg, rand)`
with `ρ` the random padding and returns the embedded point with the bytes that did not fit,
`pickLen` the embedding capacity. -/
structure Suite (P S : Type) where
  base : P
  add : P → P → P
  sub : P → P → P
  mul : P → S → P
  pick : Bytes → Nat → P × Bytes
  data : P → Except String Bytes
  pickLen : Nat

/-- Algebraic properties the suite is taken to satisfy. -/
structure Suite.Lawful {P S : Type} (su : Suite P S) : Prop where
  add_sub_cancel : ∀ a b : P, su.sub (su.add a b) b = a
  mul_mul_base : ∀ x r : S, su.mul (su.mul su.base x) r = su.mul (su.mul su.base r) x
  data_pick : ∀ (msg : Bytes) (ρ : Nat), msg.length ≤ su.pickLen →
    su.data (su.pick msg ρ).1 = .ok msg

/-- Operations of package `poly` the file uses.  `newReceiver` is
`poly.NewReceiver(suite, info, keyPair)`; `addDeal rv i d` is `rv.AddDeal(i, d)` and returns
the error together with the receiver afterwards; `marshalBinary` is `deal.MarshalBinary()`. -/
structure Poly (P S D Rv : Type) where
  newReceiver : Rv
  addDeal : Rv → Int → D → Option String × Rv
  produceSharedSecret : Rv → Except String (SharedSecret P S)
  marshalBinary : D → Bytes

variable {P S D Rv : Type}

/-! ## Operations -/

/-- Constructor `NewTimeVault`: the state of a fresh instance on node `index` of a tree of `n` nodes. -/
def NewTimeVault (index : Int) (n : Nat) : TimeVault P S D Rv :=
  { index := index
    info := { T := n, R := n, N := n }
    secrets := []
    recoveredSecrets := none
    sent := []
    warnings := []
    timers := [] }

/-- The sid of `Seal`: `SID(fmt.Sprintf("%s%d", TVSS, tv.Node.Index()))`. -/
def sealSID (index : Int) : SID := TVSS ++ toString index

/-- Method `TimeVault.initSecret`.  `deal` is the deal `ConstructDeal` yields if it is called. -/
def initSecret (po : Poly P S D Rv) (bcast : Msg → Option String) (deal : D)
    (tv : TimeVault P S D Rv) (sid : SID) (duration : Int) :
    Option String × TimeVault P S D Rv :=
  -- Initialise shared secret of given type if necessary
  let created : Secret P S D Rv × TimeVault P S D Rv :=
    match mapGet tv.secrets sid with
    | some s => (s, tv)
    | none =>
      let sec : Secret P S D Rv :=
        { secret := none, receiver := po.newReceiver, deals := [], numConfs := 0,
          duration := duration, expired := false }
      (sec, { tv with secrets := mapSet tv.secrets sid sec })
  let secret := created.1
  let tv1 := created.2
  -- Initialise and broadcast our deal if necessary
  if secret.deals.length = 0 then
    let secret1 := { secret with deals := mapSet secret.deals tv.index deal }
    let msg := Msg.SecInitMsg tv.index sid (po.marshalBinary deal) duration
    let tv2 := { tv1 with secrets := mapSet tv1.secrets sid secret1, sent := tv1.sent ++ [msg] }
    match bcast msg with
    | some e => (none, { tv2 with warnings := tv2.warnings ++ ["Broadcast failed" ++ e] })
    | none => (none, tv2)
  else
    (none, tv1)

/-- Value of an integer as a Go `int` of 64 bits (two's complement wraparound). -/
def wrapInt64 (n : Int) : Int :=
  (n + 9223372036854775808) % 18446744073709551616 - 9223372036854775808

/-- Go's `n++` on an `int`: the largest value 2^63 - 1 wraps to -2^63. -/
def incInt (n : Int) : Int := wrapInt64 (n + 1)

/-- The loop `for _, deal := range secret.deals { secret.receiver.AddDeal(index, deal) }` of
`finaliseSecret`: stops at the first error. -/
def addDeals (po : Poly P S D Rv) (index : Int) : Rv → List (Int × D) → Option String × Rv
  | rv, [] => (none, rv)
  | rv, (_, d) :: ds =>
    match po.addDeal rv index d with
    | (some e, rv1) => (some e, rv1)
    | (none, rv1) => addDeals po index rv1 ds

/-- Method `TimeVault.finaliseSecret`. -/
def finaliseSecret (po : Poly P S D Rv) (bcast : Msg → Option String)
    (tv : TimeVault P S D Rv) (sid : SID) : Option String × TimeVault P S D Rv :=
  match mapGet tv.secrets sid with
  | none => (some "Error, shared secret does not exist", tv)
  | some secret =>
    if (secret.deals.length : Int) = tv.info.T then
      match addDeals po tv.index secret.receiver secret.deals with
      | (some e, rv) =>
        (some e, { tv with secrets := mapSet tv.secrets sid { secret with receiver := rv } })
      | (none, rv) =>
        match po.produceSharedSecret rv with
        | .error e =>
          (some e, { tv with secrets := mapSet tv.secrets sid { secret with receiver := rv } })
        | .ok sec =>
          let secret1 :=
            { secret with
              receiver := rv, secret := some sec, numConfs := incInt secret.numConfs }
          -- Broadcast that we have finished setting up our shared secret
          let msg := Msg.SecConfMsg tv.index sid
          let tv1 := { tv with secrets := mapSet tv.secrets sid secret1, sent := tv.sent ++ [msg] }
          let tv2 :=
            match bcast msg with
            | some e => { tv1 with warnings := tv1.warnings ++ ["Broadcast failed" ++ e] }
            | none => tv1
          -- Start timer for revealing secret
          (none, { tv2 with timers := tv2.timers ++ [(sid, secret.duration)] })
    else
      (none, tv)

/-- The goroutine `<-timer.C; secret.expired = true` of `finaliseSecret`: the first armed
timer of `sid` fires and sets the flag of the entry it was armed for. -/
def timerFire (tv : TimeVault P S D Rv) (sid : SID) : TimeVault P S D Rv :=
  match tv.timers.find? (fun t => decide (t.1 = sid)) with
  | none => tv
  | some t =>
    match mapGet tv.secrets sid with
    | none => { tv with timers := tv.timers.erase t }
    | some secret =>
      { tv with
        timers := tv.timers.erase t
        secrets := mapSet tv.secrets sid { secret with expired := true } }

/-- ElGamal encryption of `Seal`: `kp := NewKeyPair(suite)` with secret `r`,
`m, _ := Pick(msg, rand)`, `c := Add(m, Mul(X, kp.Secret))`; returns `(kp.Public, c)`. -/
def elGamalEncrypt (su : Suite P S) (msg : Bytes) (r : S) (ρ : Nat) (X : P) : P × P :=
  let kpPublic := su.mul su.base r
  let m := (su.pick msg ρ).1
  let c := su.add m (su.mul X r)
  (kpPublic, c)

/-- ElGamal decryption of `Open`: `X := Mul(key, x)`, `Sub(ct, X).Data()`. -/
def elGamalDecrypt (su : Suite P S) (key ct : P) (x : S) : Except String Bytes :=
  let X := su.mul key x
  su.data (su.sub ct X)

/-- Method `TimeVault.Seal` up to the receive `<-tv.secretsDone`: the sid and the outcome of
`initSecret`. -/
def SealStart (po : Poly P S D Rv) (bcast : Msg → Option String) (deal : D)
    (tv : TimeVault P S D Rv) (duration : Int) :
    SID × Option String × TimeVault P S D Rv :=
  let sid := sealSID tv.index
  (sid, initSecret po bcast deal tv sid duration)

/-- Method `TimeVault.Seal` after the receive `<-tv.secretsDone`, on the state `tv` of the node at
that moment. -/
def SealFinish (su : Suite P S) (tv : TimeVault P S D Rv) (sid : SID) (msg : Bytes)
    (r : S) (ρ : Nat) : Outcome (SID × P × P) :=
  match mapGet tv.secrets sid with
  | none => .panic
  | some secret =>
    match secret.secret with
    | none => .panic
    | some ss =>
      let kc := elGamalEncrypt su msg r ρ ss.pub
      .ok (sid, kc.1, kc.2)

/-- Method `TimeVault.Seal`.  `await tv1` is the state of the node when the receive
`<-tv.secretsDone` returns, given the state `tv1` in which `Seal` started to wait; it is
`none` when nothing is ever sent on the channel. -/
def Seal (su : Suite P S) (po : Poly P S D Rv) (bcast : Msg → Option String) (deal : D)
    (await : TimeVault P S D Rv → Option (TimeVault P S D Rv))
    (tv : TimeVault P S D Rv) (msg : Bytes) (duration : Int) (r : S) (ρ : Nat) :
    Outcome (SID × P × P) × TimeVault P S D Rv :=
  match SealStart po bcast deal tv duration with
  | (_, some err, tv1) => (.error err, tv1)
  | (sid, none, tv1) =>
    match await tv1 with
    | none => (.blocked, tv1)
    | some tv2 => (SealFinish su tv2 sid msg r ρ, tv2)

/-- Method `TimeVault.Open`.  `recv` is what the receive `<-tv.secretsChan` yields, `none` when
nothing is ever sent on the channel. -/
def Open (su : Suite P S) (bcast : Msg → Option String) (recv : Option S)
    (tv : TimeVault P S D Rv) (sid : SID) (key ct : P) :
    Outcome Bytes × TimeVault P S D Rv :=
  match mapGet tv.secrets sid with
  | none => (.error "Error, shared secret does not exist", tv)
  | some secret =>
    if !secret.expired then
      (.error "Error, secret has not yet expired", tv)
    else
      -- Setup list of recovered secrets if necessary
      let recovered := tv.recoveredSecrets.getD []
      match secret.secret with
      | none => (.panic, { tv with recoveredSecrets := some recovered })
      | some ss =>
        let rs : RecoveredSecret S :=
          { priShares := { t := tv.info.T, n := tv.info.N, shares := [(ss.index, ss.share)] }
            numShares := 0 + 1 }
        -- Start process to reveal shares
        let msg := Msg.RevInitMsg tv.index sid
        let tv1 :=
          { tv with recoveredSecrets := some (mapSet recovered sid rs), sent := tv.sent ++ [msg] }
        match bcast msg with
        | some err => (.error err, tv1)
        | none =>
          match recv with
          | none => (.blocked, tv1)
          | some x => (Outcome.ofExcept (elGamalDecrypt su key ct x), tv1)

/-! ## Runs of the instance -/

/-- One operation of the protocol instance of this file on the node state: `Seal` up to its
receive (after the receive `Seal` writes nothing), `Open`, `initSecret`, `finaliseSecret`,
and the firing of a timer. -/
inductive Step (su : Suite P S) (po : Poly P S D Rv) :
    TimeVault P S D Rv → TimeVault P S D Rv → Prop where
  | sealStart (bcast : Msg → Option String) (deal : D) (tv : TimeVault P S D Rv)
      (duration : Int) :
      Step su po tv (SealStart po bcast deal tv duration).2.2
  | openCall (bcast : Msg → Option String) (recv : Option S) (tv : TimeVault P S D Rv)
      (sid : SID) (key ct : P) :
      Step su po tv (Open su bcast recv tv sid key ct).2
  | initSecretCall (bcast : Msg → Option String) (deal : D) (tv : TimeVault P S D Rv)
      (sid : SID) (duration : Int) :
      Step su po tv (initSecret po bcast deal tv sid duration).2
  | finaliseSecretCall (bcast : Msg → Option String) (tv : TimeVault P S D Rv) (sid : SID) :
      Step su po tv (finaliseSecret po bcast tv sid).2
  | timerFired (tv : TimeVault P S D Rv) (sid : SID) :
      Step su po tv (timerFire tv sid)

/-- What every run of operations keeps of a registry entry: the expired flag is not reset,
the duration stays, and a nonempty deals map stays. -/
def EntryLe (e e1 : Secret P S D Rv) : Prop :=
  (e.expired = true → e1.expired = true) ∧
  e1.duration = e.duration ∧ (e.deals ≠ [] → e1.deals = e.deals)

/-- What one operation does to a registry entry: it keeps it in the sense of `EntryLe`, and
the confirmation count is left alone or incremented once. -/
def EntryStep (e e1 : Secret P S D Rv) : Prop :=
  EntryLe e e1 ∧ (e1.numConfs = e.numConfs ∨ e1.numConfs = incInt e.numConfs)

/-- Every entry of the registry `m` is kept in the registry `m1`. -/
def RegistryLe (m m1 : List (SID × Secret P S D Rv)) : Prop :=
  ∀ sid e, mapGet m sid = some e → ∃ e1, mapGet m1 sid = some e1 ∧ EntryLe e e1

/-- Every entry of the registry `m` is in the registry `m1`, after one operation. -/
def RegistryStep (m m1 : List (SID × Secret P S D Rv)) : Prop :=
  ∀ sid e, mapGet m sid = some e → ∃ e1, mapGet m1 sid = some e1 ∧ EntryStep e e1

/-- A sequence of `finaliseSecret(sid)` calls, one per transport verdict in `bcasts`;
returns the state after the last call. -/
def finaliseSecrets (po : Poly P S D Rv) (tv : TimeVault P S D Rv) (sid : SID) :
    List (Msg → Option String) → TimeVault P S D Rv
  | [] => tv
  | bcast :: bcasts => finaliseSecrets po (finaliseSecret po bcast tv sid).2 sid bcasts

/-! ## A concrete instance

The additive group of the integers as a suite, and a receiver that sums the dealt secrets.
They serve to evaluate the operations on concrete inputs. -/

/-- Value of a byte string in base 256, closed by a digit 1. -/
def encodeBytes (msg : Bytes) : Nat := Nat.ofDigits 256 (msg.map Fin.val ++ [1])

/-- Byte string of a value: its base-256 digits without the closing one. -/
def decodeBytes (n : Nat) : Bytes := ((Nat.digits 256 n).dropLast).map (fun d => Fin.ofNat d)

/-- Suite over the integers with generator 1; a point embeds at most 29 bytes. -/
def intSuite : Suite Int Int :=
  { base := 1
    add := fun a b => a + b
    sub := fun a b => a - b
    mul := fun p s => s * p
    pick := fun msg _ => (encodeBytes (msg.take 29), msg.drop 29)
    data := fun p => if 0 < p then .ok (decodeBytes p.toNat) else .error "invalid point"
    pickLen := 29 }

/-- Receiver that keeps the dealt secrets; the joint secret is their sum. -/
def sumPoly : Poly Int Int Nat (List Nat) :=
  { newReceiver := []
    addDeal := fun rv _ d => (none, rv ++ [d])
    produceSharedSecret := fun rv =>
      if rv = [] then .error "no deals" else .ok { pub := (rv.sum : Int), share := rv.sum, index := 0 }
    marshalBinary := fun d => [Fin.ofNat d] }

/-- Transport that accepts every broadcast. -/
def bcastOk : Msg → Option String := fun _ => none

/-- Transport that rejects every broadcast. -/
def bcastFail : Msg → Option String := fun _ => some "transport down"

/-- Fresh instance on node 0 of a one-node tree. -/
def vault0 : TimeVault Int Int Nat (List Nat) := NewTimeVault 0 1

/-- Node 0 after `initSecret` for its own sid with deal 5 and duration 2 s. -/
def vault1 : TimeVault Int Int Nat (List Nat) :=
  (initSecret sumPoly bcastOk 5 vault0 (sealSID 0) 2000000000).2

/-- Node 0 after the deal is finalised. -/
def vault2 : TimeVault Int Int Nat (List Nat) :=
  (finaliseSecret sumPoly bcastOk vault1 (sealSID 0)).2

/-- Node 0 after the timer has fired. -/
def vault3 : TimeVault Int Int Nat (List Nat) := timerFire vault2 (sealSID 0)

/-- Node 0 of a one-node tree whose entry holds its deal and has the largest confirmation
count a Go `int` can hold. -/
def vaultMaxConfs : TimeVault Int Int Nat (List Nat) :=
  { index := 0
    info := { T := 1, R := 1, N := 1 }
    secrets := [("TVSS0", { secret := none, receiver := [], deals := [(0, 5)],
                            numConfs := 9223372036854775807, duration := 2000000000,
                            expired := false })]
    recoveredSecrets := none
    sent := []
    warnings := []
    timers := [] }

/-- The bytes of "Hi". -/
def msgHi : Bytes := [72, 105]

/-- Receiver that rejects the deal 0 and cannot produce a shared secret when the dealt
secrets sum to more than 255. -/
def pickyPoly : Poly Int Int Nat (List Nat) :=
  { newReceiver := []
    addDeal := fun rv _ d => if d = 0 then (some "invalid deal", rv) else (none, rv ++ [d])
    produceSharedSecret := fun rv =>
      if 255 < rv.sum then .error "share out of range"
      else .ok { pub := (rv.sum : Int), share := rv.sum, index := 0 }
    marshalBinary := fun d => [Fin.ofNat d] }

/-- Node 0 of a two-node tree after `initSecret` for its own sid: one deal of the two. -/
def vaultHalf : TimeVault Int Int Nat (List Nat) :=
  (initSecret pickyPoly bcastOk 5 (NewTimeVault 0 2) (sealSID 0) 2000000000).2

/-- Node 0 of a one-node tree holding the deal 0, which the receiver rejects. -/
def vaultBadDeal : TimeVault Int Int Nat (List Nat) :=
  (initSecret pickyPoly bcastOk 0 vault0 (sealSID 0) 2000000000).2

/-- Node 0 of a one-node tree holding the deal 300, from which no shared secret is
produced. -/
def vaultBadShare : TimeVault Int Int Nat (List Nat) :=
  (initSecret pickyPoly bcastOk 300 vault0 (sealSID 0) 2000000000).2

/-! ## Map lemmas -/

theorem mapGet_filter_ne {κ ν : Type} [DecidableEq κ] (m : List (κ × ν)) (k k' : κ)
    (h : k' ≠ k) : mapGet (m.filter (fun e => decide (e.1 ≠ k))) k' = mapGet m k' := by
  induction m with
  | nil => rfl
  | cons e m ih =>
    obtain ⟨a, b⟩ := e
    by_cases he : a = k
    · have hne : ¬ a = k' := fun h2 => h (h2.symm.trans he)
      rw [List.filter_cons_of_neg (by simpa using he), ih]
      simp only [mapGet, if_neg hne]
    · rw [List.filter_cons_of_pos (by simpa using he)]
      simp only [mapGet, ih]

theorem mapGet_mapSet_self {κ ν : Type} [DecidableEq κ] (m : List (κ × ν)) (k : κ) (v : ν) :
    mapGet (mapSet m k v) k = some v := by
  simp [mapSet, mapGet]

theorem mapGet_mapSet_ne {κ ν : Type} [DecidableEq κ] (m : List (κ × ν)) (k k' : κ) (v : ν)
    (h : k' ≠ k) : mapGet (mapSet m k v) k' = mapGet m k' := by
  simp only [mapSet, mapGet, if_neg (Ne.symm h)]
  exact mapGet_filter_ne m k k' h

theorem mapGet_mapSet {κ ν : Type} [DecidableEq κ] (m : List (κ × ν)) (k k' : κ) (v : ν) :
    mapGet (mapSet m k v) k' = if k' = k then some v else mapGet m k' := by
  by_cases h : k' = k
  · subst h; simp [mapGet_mapSet_self]
  · simp [h, mapGet_mapSet_ne]

/-! ## Basic facts about the operations -/

theorem initSecret_fst (po : Poly P S D Rv) (bcast : Msg → Option String) (deal : D)
    (tv : TimeVault P S D Rv) (sid : SID) (duration : Int) :
    (initSecret po bcast deal tv sid duration).1 = none := by
  unfold initSecret
  simp only
  split
  · split <;> rfl
  · rfl

/-! ## The concrete suite is lawful -/

theorem digits_encodeBytes (msg : Bytes) :
    Nat.digits 256 (encodeBytes msg) = msg.map Fin.val ++ [1] := by
  unfold encodeBytes
  apply Nat.digits_ofDigits 256 (by norm_num)
  · intro l hl
    rcases List.mem_append.mp hl with h | h
    · obtain ⟨b, _, rfl⟩ := List.mem_map.mp h
      exact b.isLt
    · rw [List.mem_singleton.mp h]; norm_num
  · intro _
    rw [List.getLast_append_singleton]
    norm_num

theorem decodeBytes_encodeBytes (msg : Bytes) : decodeBytes (encodeBytes msg) = msg := by
  unfold decodeBytes
  rw [digits_encodeBytes, List.dropLast_concat, List.map_map]
  have h : ((fun d => Fin.ofNat d) ∘ Fin.val : Fin 256 → Fin 256) = id := by
    funext b
    exact Fin.ext (Nat.mod_eq_of_lt b.isLt)
  rw [h, List.map_id]

theorem encodeBytes_pos (msg : Bytes) : 0 < encodeBytes msg := by
  rcases Nat.eq_zero_or_pos (encodeBytes msg) with h | h
  · have hd := digits_encodeBytes msg
    rw [h] at hd
    simp at hd
  · exact h

theorem intSuite_lawful : intSuite.Lawful where
  add_sub_cancel := fun a b => Int.add_sub_cancel a b
  mul_mul_base := fun x r => by
    show r * (x * 1) = x * (r * 1)
    ring
  data_pick := fun msg ρ hlen => by
    have htake : msg.take 29 = msg := List.take_of_length_le hlen
    show (if (0 : Int) < ((encodeBytes (msg.take 29) : Nat) : Int)
        then Except.ok (decodeBytes ((encodeBytes (msg.take 29) : Nat) : Int).toNat)
        else Except.error "invalid point") = Except.ok msg
    rw [htake, if_pos (by exact_mod_cast encodeBytes_pos msg), Int.toNat_ofNat,
      decodeBytes_encodeBytes]

/-! ## C1: ElGamal round trip -/

theorem elGamal_decrypt_encrypt (su : Suite P S) (hsu : su.Lawful) (msg : Bytes) (r x : S)
    (ρ : Nat) :
    su.sub (elGamalEncrypt su msg r ρ (su.mul su.base x)).2
      (su.mul (elGamalEncrypt su msg r ρ (su.mul su.base x)).1 x) = (su.pick msg ρ).1 := by
  simp only [elGamalEncrypt]
  rw [hsu.mul_mul_base x r, hsu.add_sub_cancel]

/-- C1: ElGamal round trip of Seal and Open.  For a lawful suite, a message within the
embedding capacity, an ephemeral scalar r and a joint secret scalar x whose public point
x·G is the joint public point of the entry, whenever Seal returns (sid, R, C) then
R = r·G, C = Pick(msg) + r·(x·G), the decryption step computes C − x·R = Pick(msg), and
Open on an expired entry that receives the reconstructed x returns exactly msg. -/
theorem seal_open_roundtrip (su : Suite P S) (po : Poly P S D Rv)
    (bcastSeal bcastOpen : Msg → Option String) (deal : D)
    (await : TimeVault P S D Rv → Option (TimeVault P S D Rv))
    (tv tvSealed tvOpen : TimeVault P S D Rv) (msg : Bytes) (duration : Int) (r x : S) (ρ : Nat)
    (sid : SID) (R C : P) (secretSealed secretOpen : Secret P S D Rv)
    (ssSealed ssOpen : SharedSecret P S)
    (hsu : su.Lawful) (hcap : msg.length ≤ su.pickLen)
    (hseal : Seal su po bcastSeal deal await tv msg duration r ρ = (.ok (sid, R, C), tvSealed))
    (hentry : mapGet tvSealed.secrets sid = some secretSealed)
    (hshared : secretSealed.secret = some ssSealed)
    (hpub : ssSealed.pub = su.mul su.base x)
    (hentryOpen : mapGet tvOpen.secrets sid = some secretOpen)
    (hexpired : secretOpen.expired = true)
    (hsharedOpen : secretOpen.secret = some ssOpen)
    (hbcast : bcastOpen (Msg.RevInitMsg tvOpen.index sid) = none) :
    R = su.mul su.base r ∧
    C = su.add (su.pick msg ρ).1 (su.mul (su.mul su.base x) r) ∧
    su.sub C (su.mul R x) = (su.pick msg ρ).1 ∧
    elGamalDecrypt su R C x = .ok msg ∧
    (Open su bcastOpen (some x) tvOpen sid R C).1 = .ok msg := by
  -- what Seal returned
  have hRC : R = su.mul su.base r ∧
      C = su.add (su.pick msg ρ).1 (su.mul (su.mul su.base x) r) := by
    unfold Seal SealStart at hseal
    simp only [initSecret_fst] at hseal
    have hnone := initSecret_fst po bcastSeal deal tv (sealSID tv.index) duration
    revert hseal
    generalize initSecret po bcastSeal deal tv (sealSID tv.index) duration = res at hnone ⊢
    obtain ⟨e, tv1⟩ := res
    simp only at hnone
    subst hnone
    simp only
    cases hawait : await tv1 with
    | none => intro h; simp at h
    | some tv2 =>
      intro h
      simp only [Prod.mk.injEq] at h
      obtain ⟨hfin, htv⟩ := h
      subst htv
      unfold SealFinish at hfin
      cases hg : mapGet tv2.secrets (sealSID tv.index) with
      | none => rw [hg] at hfin; simp at hfin
      | some sec =>
        rw [hg] at hfin
        simp only at hfin
        cases hs : sec.secret with
        | none => rw [hs] at hfin; simp at hfin
        | some ss =>
          rw [hs] at hfin
          simp only [Outcome.ok.injEq, Prod.mk.injEq] at hfin
          obtain ⟨hsid, hR, hC⟩ := hfin
          subst hsid
          rw [hg] at hentry
          cases hentry
          rw [hs] at hshared
          cases hshared
          rw [hpub] at hR hC
          exact ⟨hR.symm, hC.symm⟩
  obtain ⟨hR, hC⟩ := hRC
  have hsub : su.sub C (su.mul R x) = (su.pick msg ρ).1 := by
    rw [hR, hC]
    exact elGamal_decrypt_encrypt su hsu msg r x ρ
  have hdec : elGamalDecrypt su R C x = .ok msg := by
    unfold elGamalDecrypt
    simp only
    rw [hsub]
    exact hsu.data_pick msg ρ hcap
  refine ⟨hR, hC, hsub, hdec, ?_⟩
  unfold Open
  rw [hentryOpen]
  simp only [hexpired, hsharedOpen, hbcast, hdec, Outcome.ofExcept]
  rfl


/-- Witness of C1 on node 0 of a one-node tree with the integer suite: sealing "Hi" with
ephemeral scalar 7 and joint secret 5, and opening after the timer fired. -/
theorem seal_open_roundtrip_witness :
    (7 : Int) = intSuite.mul intSuite.base 7 ∧
    (92523 : Int) = intSuite.add (intSuite.pick msgHi 0).1
      (intSuite.mul (intSuite.mul intSuite.base 5) 7) ∧
    intSuite.sub 92523 (intSuite.mul 7 5) = (intSuite.pick msgHi 0).1 ∧
    elGamalDecrypt intSuite 7 92523 5 = .ok msgHi ∧
    (Open intSuite bcastOk (some 5) vault3 (sealSID 0) 7 92523).1 = .ok msgHi :=
  seal_open_roundtrip intSuite sumPoly bcastOk bcastOk 5
    (fun tv1 => some (finaliseSecret sumPoly bcastOk tv1 (sealSID 0)).2)
    vault0 vault2 vault3 msgHi 2000000000 7 5 0 (sealSID 0) 7 92523
    { secret := some { pub := 5, share := 5, index := 0 }, receiver := [5], deals := [(0, 5)],
      numConfs := 1, duration := 2000000000, expired := false }
    { secret := some { pub := 5, share := 5, index := 0 }, receiver := [5], deals := [(0, 5)],
      numConfs := 1, duration := 2000000000, expired := true }
    { pub := 5, share := 5, index := 0 } { pub := 5, share := 5, index := 0 }
    intSuite_lawful (by decide) (by decide) (by decide) rfl (by decide) (by decide) rfl rfl rfl

/-! ## C2 and C3: the error returns of Open -/

/-- C2: on a state in which sid has a registry entry whose expired flag is false, Open
returns the not-yet-expired error, which differs from the unknown-secret error, and leaves
the state as it was: nothing is broadcast (no RevInit) and the recovered-secrets map is
unchanged, so no RecoveredSecret is created for sid. -/
theorem open_not_yet_expired (su : Suite P S) (bcast : Msg → Option String) (recv : Option S)
    (tv : TimeVault P S D Rv) (sid : SID) (key ct : P) (secret : Secret P S D Rv)
    (hentry : mapGet tv.secrets sid = some secret) (hexpired : secret.expired = false) :
    (Open su bcast recv tv sid key ct).1 = .error "Error, secret has not yet expired" ∧
    (Open su bcast recv tv sid key ct).1 ≠ .error "Error, shared secret does not exist" ∧
    (Open su bcast recv tv sid key ct).2 = tv ∧
    (Open su bcast recv tv sid key ct).2.sent = tv.sent ∧
    (Open su bcast recv tv sid key ct).2.recoveredSecrets = tv.recoveredSecrets := by
  have h : Open su bcast recv tv sid key ct =
      (.error "Error, secret has not yet expired", tv) := by
    unfold Open
    rw [hentry]
    simp [hexpired]
  rw [h]
  refine ⟨rfl, ?_, rfl, rfl, rfl⟩
  intro hne
  simp only [Outcome.error.injEq] at hne
  exact absurd hne (by decide)

/-- Witness of C2: Open on node 0 right after the secret is finalised, before the timer
fires. -/
theorem open_not_yet_expired_witness :
    (Open intSuite bcastOk (some 5) vault2 (sealSID 0) 7 92523).1
      = .error "Error, secret has not yet expired" ∧
    (Open intSuite bcastOk (some 5) vault2 (sealSID 0) 7 92523).1
      ≠ .error "Error, shared secret does not exist" ∧
    (Open intSuite bcastOk (some 5) vault2 (sealSID 0) 7 92523).2 = vault2 ∧
    (Open intSuite bcastOk (some 5) vault2 (sealSID 0) 7 92523).2.sent = vault2.sent ∧
    (Open intSuite bcastOk (some 5) vault2 (sealSID 0) 7 92523).2.recoveredSecrets
      = vault2.recoveredSecrets :=
  open_not_yet_expired intSuite bcastOk (some 5) vault2 (sealSID 0) 7 92523
    { secret := some { pub := 5, share := 5, index := 0 }, receiver := [5], deals := [(0, 5)],
      numConfs := 1, duration := 2000000000, expired := false }
    (by decide) rfl

/-- C3: for a sid without an entry in the local registry, Open returns the unknown-secret
error and leaves the state as it was: no RevInit is broadcast, and the registry and the
recovered-secrets map are unchanged. -/
theorem open_unknown_secret (su : Suite P S) (bcast : Msg → Option String) (recv : Option S)
    (tv : TimeVault P S D Rv) (sid : SID) (key ct : P)
    (hentry : mapGet tv.secrets sid = none) :
    (Open su bcast recv tv sid key ct).1 = .error "Error, shared secret does not exist" ∧
    (Open su bcast recv tv sid key ct).2.sent = tv.sent ∧
    (Open su bcast recv tv sid key ct).2.secrets = tv.secrets ∧
    (Open su bcast recv tv sid key ct).2.recoveredSecrets = tv.recoveredSecrets ∧
    (Open su bcast recv tv sid key ct).2 = tv := by
  have h : Open su bcast recv tv sid key ct =
      (.error "Error, shared secret does not exist", tv) := by
    unfold Open
    rw [hentry]
  rw [h]
  exact ⟨rfl, rfl, rfl, rfl, rfl⟩

/-- Witness of C3: Open of sid TVSS_999 on node 0, which only knows TVSS0. -/
theorem open_unknown_secret_witness :
    (Open intSuite bcastOk (some 5) vault3 "TVSS_999" 7 92523).1
      = .error "Error, shared secret does not exist" ∧
    (Open intSuite bcastOk (some 5) vault3 "TVSS_999" 7 92523).2.sent = vault3.sent ∧
    (Open intSuite bcastOk (some 5) vault3 "TVSS_999" 7 92523).2.secrets = vault3.secrets ∧
    (Open intSuite bcastOk (some 5) vault3 "TVSS_999" 7 92523).2.recoveredSecrets
      = vault3.recoveredSecrets ∧
    (Open intSuite bcastOk (some 5) vault3 "TVSS_999" 7 92523).2 = vault3 :=
  open_unknown_secret intSuite bcastOk (some 5) vault3 "TVSS_999" 7 92523 (by decide)

/-! ## Effect of initSecret -/

/-- The entry `initSecret` creates for a sid that has none, before the own deal is stored. -/
theorem initSecret_absent (po : Poly P S D Rv) (bcast : Msg → Option String) (deal : D)
    (tv : TimeVault P S D Rv) (sid : SID) (duration : Int)
    (habsent : mapGet tv.secrets sid = none) :
    mapGet (initSecret po bcast deal tv sid duration).2.secrets sid =
      some { secret := none, receiver := po.newReceiver, deals := [(tv.index, deal)],
             numConfs := 0, duration := duration, expired := false } ∧
    (initSecret po bcast deal tv sid duration).2.sent =
      tv.sent ++ [Msg.SecInitMsg tv.index sid (po.marshalBinary deal) duration] ∧
    (∀ sid', sid' ≠ sid →
      mapGet (initSecret po bcast deal tv sid duration).2.secrets sid' =
        mapGet tv.secrets sid') := by
  unfold initSecret
  simp only [habsent, List.length_nil, if_true]
  cases bcast (Msg.SecInitMsg tv.index sid (po.marshalBinary deal) duration) with
  | none =>
    refine ⟨?_, rfl, ?_⟩
    · simp only [mapGet_mapSet_self]; rfl
    · intro sid' hne
      simp only [mapGet_mapSet_ne _ _ _ _ hne]
  | some e =>
    refine ⟨?_, rfl, ?_⟩
    · simp only [mapGet_mapSet_self]; rfl
    · intro sid' hne
      simp only [mapGet_mapSet_ne _ _ _ _ hne]

/-- On an entry that already holds a deal `initSecret` does nothing. -/
theorem initSecret_dealt (po : Poly P S D Rv) (bcast : Msg → Option String) (deal : D)
    (tv : TimeVault P S D Rv) (sid : SID) (duration : Int) (secret : Secret P S D Rv)
    (hentry : mapGet tv.secrets sid = some secret) (hdeals : secret.deals ≠ []) :
    initSecret po bcast deal tv sid duration = (none, tv) := by
  unfold initSecret
  have hlen : secret.deals.length ≠ 0 := fun h => hdeals (List.length_eq_zero.mp h)
  simp only [hentry, if_neg hlen]

/-- On an entry without deals `initSecret` stores the own deal and broadcasts it. -/
theorem initSecret_undealt (po : Poly P S D Rv) (bcast : Msg → Option String) (deal : D)
    (tv : TimeVault P S D Rv) (sid : SID) (duration : Int) (secret : Secret P S D Rv)
    (hentry : mapGet tv.secrets sid = some secret) (hdeals : secret.deals = []) :
    mapGet (initSecret po bcast deal tv sid duration).2.secrets sid =
      some { secret with deals := [(tv.index, deal)] } ∧
    (initSecret po bcast deal tv sid duration).2.sent =
      tv.sent ++ [Msg.SecInitMsg tv.index sid (po.marshalBinary deal) duration] ∧
    (∀ sid', sid' ≠ sid →
      mapGet (initSecret po bcast deal tv sid duration).2.secrets sid' =
        mapGet tv.secrets sid') := by
  unfold initSecret
  simp only [hentry, hdeals, List.length_nil, if_true]
  cases bcast (Msg.SecInitMsg tv.index sid (po.marshalBinary deal) duration) with
  | none =>
    refine ⟨?_, rfl, ?_⟩
    · simp only [mapGet_mapSet_self]; rfl
    · intro sid' hne
      simp only [mapGet_mapSet_ne _ _ _ _ hne]
  | some e =>
    refine ⟨?_, rfl, ?_⟩
    · simp only [mapGet_mapSet_self]; rfl
    · intro sid' hne
      simp only [mapGet_mapSet_ne _ _ _ _ hne]

/-- What `initSecret` logs when it broadcasts: a warning exactly when the transport
rejects the message. -/
theorem initSecret_warnings (po : Poly P S D Rv) (bcast : Msg → Option String) (deal : D)
    (tv : TimeVault P S D Rv) (sid : SID) (duration : Int)
    (hundealt : ∀ secret, mapGet tv.secrets sid = some secret → secret.deals = []) :
    (initSecret po bcast deal tv sid duration).2.warnings =
      match bcast (Msg.SecInitMsg tv.index sid (po.marshalBinary deal) duration) with
      | some e => tv.warnings ++ ["Broadcast failed" ++ e]
      | none => tv.warnings := by
  unfold initSecret
  cases hentry : mapGet tv.secrets sid with
  | none =>
    simp only [List.length_nil, if_true]
    cases bcast (Msg.SecInitMsg tv.index sid (po.marshalBinary deal) duration) <;> rfl
  | some secret =>
    simp only [hundealt secret hentry, List.length_nil, if_true]
    cases bcast (Msg.SecInitMsg tv.index sid (po.marshalBinary deal) duration) <;> rfl

/-- The fields `initSecret` never writes. -/
theorem initSecret_frame (po : Poly P S D Rv) (bcast : Msg → Option String) (deal : D)
    (tv : TimeVault P S D Rv) (sid : SID) (duration : Int) :
    (initSecret po bcast deal tv sid duration).2.index = tv.index ∧
    (initSecret po bcast deal tv sid duration).2.info = tv.info ∧
    (initSecret po bcast deal tv sid duration).2.recoveredSecrets = tv.recoveredSecrets ∧
    (initSecret po bcast deal tv sid duration).2.timers = tv.timers := by
  unfold initSecret
  simp only
  split
  · split <;> (split <;> exact ⟨rfl, rfl, rfl, rfl⟩)
  · split <;> exact ⟨rfl, rfl, rfl, rfl⟩

/-! ## Shape of Seal -/

/-- The error branch of `Seal` is dead: after `initSecret` the call waits for the ready
signal and then encrypts. -/
theorem Seal_eq (su : Suite P S) (po : Poly P S D Rv)
    (bcast : Msg → Option String) (deal : D)
    (await : TimeVault P S D Rv → Option (TimeVault P S D Rv))
    (tv : TimeVault P S D Rv) (msg : Bytes) (duration : Int) (r : S) (ρ : Nat) :
    Seal su po bcast deal await tv msg duration r ρ =
      match await (initSecret po bcast deal tv (sealSID tv.index) duration).2 with
      | none => (.blocked, (initSecret po bcast deal tv (sealSID tv.index) duration).2)
      | some tv2 => (SealFinish su tv2 (sealSID tv.index) msg r ρ, tv2) := by
  have hnone := initSecret_fst po bcast deal tv (sealSID tv.index) duration
  unfold Seal SealStart
  dsimp only
  revert hnone
  generalize initSecret po bcast deal tv (sealSID tv.index) duration = res
  obtain ⟨err, tv1⟩ := res
  intro hnone
  simp only at hnone
  subst hnone
  rfl

/-- After the wait `Seal` does not return an error. -/
theorem SealFinish_ne_error (su : Suite P S) (tv : TimeVault P S D Rv) (sid : SID)
    (msg : Bytes) (r : S) (ρ : Nat) (err : String) :
    SealFinish su tv sid msg r ρ ≠ .error err := by
  unfold SealFinish
  cases h1 : mapGet tv.secrets sid with
  | none => simp
  | some secret =>
    cases h2 : secret.secret with
    | none => simp [h2]
    | some ss => simp [h2]

/-- A call of `Seal` never returns an error. -/
theorem Seal_ne_error (su : Suite P S) (po : Poly P S D Rv)
    (bcast : Msg → Option String) (deal : D)
    (await : TimeVault P S D Rv → Option (TimeVault P S D Rv))
    (tv : TimeVault P S D Rv) (msg : Bytes) (duration : Int) (r : S) (ρ : Nat) (err : String) :
    (Seal su po bcast deal await tv msg duration r ρ).1 ≠ .error err := by
  rw [Seal_eq]
  cases await (initSecret po bcast deal tv (sealSID tv.index) duration).2 with
  | none => simp
  | some tv2 => exact SealFinish_ne_error su tv2 _ msg r ρ err

/-! ## C4: a rejected broadcast of the own deal -/

/-- C4, the claim fails on node 0: the transport rejects the SecInit broadcast, yet the
initSecret step of Seal returns no error and only logs a warning; Seal goes on to the
receive, where it blocks when no ready signal comes and returns a ciphertext when one
comes. -/
theorem seal_broadcast_rejected_counterexample :
    bcastFail (Msg.SecInitMsg 0 "TVSS0" [5] 2000000000) = some "transport down" ∧
    (SealStart sumPoly bcastFail 5 vault0 2000000000).2.1 = none ∧
    (SealStart sumPoly bcastFail 5 vault0 2000000000).2.2.sent
      = [Msg.SecInitMsg 0 "TVSS0" [5] 2000000000] ∧
    (Seal intSuite sumPoly bcastFail 5 (fun _ => none) vault0 msgHi 2000000000 7 0).1
      = .blocked ∧
    (Seal intSuite sumPoly bcastFail 5
        (fun tv1 => some (finaliseSecret sumPoly bcastOk tv1 (sealSID 0)).2)
        vault0 msgHi 2000000000 7 0).1 = .ok ("TVSS0", 7, 92523) := by
  decide

/-- C4 as amended: when the transport rejects the broadcast of the own deal during Seal
(the node has not dealt for its sid yet, so the deal is broadcast, and the verdict is an
error e), initSecret logs the warning and returns no error, with the own deal stored under
the index of the node in the registry entry of the sid; Seal returns no error either: it
goes on to the receive of the ready signal, blocked there in that state as long as no
signal comes and continuing with the encryption when one comes. -/
theorem seal_broadcast_rejected_logged (su : Suite P S) (po : Poly P S D Rv)
    (bcast : Msg → Option String) (deal : D)
    (await : TimeVault P S D Rv → Option (TimeVault P S D Rv))
    (tv : TimeVault P S D Rv) (msg : Bytes) (duration : Int) (r : S) (ρ : Nat) (e : String)
    (hundealt : ∀ secret, mapGet tv.secrets (sealSID tv.index) = some secret →
      secret.deals = [])
    (hreject : bcast (Msg.SecInitMsg tv.index (sealSID tv.index) (po.marshalBinary deal)
      duration) = some e) :
    (SealStart po bcast deal tv duration).2.1 = none ∧
    (SealStart po bcast deal tv duration).2.2.warnings
      = tv.warnings ++ ["Broadcast failed" ++ e] ∧
    (SealStart po bcast deal tv duration).2.2.sent
      = tv.sent ++ [Msg.SecInitMsg tv.index (sealSID tv.index) (po.marshalBinary deal)
          duration] ∧
    (∃ secret1, mapGet (SealStart po bcast deal tv duration).2.2.secrets (sealSID tv.index)
        = some secret1 ∧
      secret1.deals = [(tv.index, deal)] ∧ mapGet secret1.deals tv.index = some deal) ∧
    (∀ err, (Seal su po bcast deal await tv msg duration r ρ).1 ≠ .error err) ∧
    (await (SealStart po bcast deal tv duration).2.2 = none →
      Seal su po bcast deal await tv msg duration r ρ
        = (.blocked, (SealStart po bcast deal tv duration).2.2)) ∧
    (∀ tv2, await (SealStart po bcast deal tv duration).2.2 = some tv2 →
      Seal su po bcast deal await tv msg duration r ρ
        = (SealFinish su tv2 (sealSID tv.index) msg r ρ, tv2)) := by
  have hwarn := initSecret_warnings po bcast deal tv (sealSID tv.index) duration hundealt
  rw [hreject] at hwarn
  have hstate : (initSecret po bcast deal tv (sealSID tv.index) duration).2.sent
      = tv.sent ++ [Msg.SecInitMsg tv.index (sealSID tv.index) (po.marshalBinary deal)
          duration] ∧
      ∃ secret1, mapGet (initSecret po bcast deal tv (sealSID tv.index) duration).2.secrets
          (sealSID tv.index) = some secret1 ∧
        secret1.deals = [(tv.index, deal)] ∧ mapGet secret1.deals tv.index = some deal := by
    cases hentry : mapGet tv.secrets (sealSID tv.index) with
    | none =>
      have h := initSecret_absent po bcast deal tv _ duration hentry
      exact ⟨h.2.1, _, h.1, rfl, by simp [mapGet]⟩
    | some secret =>
      have h := initSecret_undealt po bcast deal tv _ duration secret hentry
        (hundealt secret hentry)
      exact ⟨h.2.1, _, h.1, rfl, by simp [mapGet]⟩
  have hnone := initSecret_fst po bcast deal tv (sealSID tv.index) duration
  have hseal := Seal_eq su po bcast deal await tv msg duration r ρ
  refine ⟨hnone, hwarn, hstate.1, hstate.2, ?_, ?_, ?_⟩
  · exact fun err => Seal_ne_error su po bcast deal await tv msg duration r ρ err
  · intro hawait
    rw [hseal]
    simp only [SealStart] at hawait ⊢
    rw [hawait]
  · intro tv2 hawait
    rw [hseal]
    simp only [SealStart] at hawait
    rw [hawait]

/-- Witness of the amended C4 on node 0 with a transport that rejects every broadcast. -/
theorem seal_broadcast_rejected_logged_witness :
    (SealStart sumPoly bcastFail 5 vault0 2000000000).2.1 = none ∧
    (SealStart sumPoly bcastFail 5 vault0 2000000000).2.2.warnings
      = vault0.warnings ++ ["Broadcast failed" ++ "transport down"] ∧
    (SealStart sumPoly bcastFail 5 vault0 2000000000).2.2.sent
      = vault0.sent ++ [Msg.SecInitMsg vault0.index (sealSID vault0.index)
          (sumPoly.marshalBinary 5) 2000000000] ∧
    (∃ secret1, mapGet (SealStart sumPoly bcastFail 5 vault0 2000000000).2.2.secrets
        (sealSID vault0.index) = some secret1 ∧
      secret1.deals = [(vault0.index, 5)] ∧ mapGet secret1.deals vault0.index = some 5) ∧
    (∀ err, (Seal intSuite sumPoly bcastFail 5 (fun _ => none) vault0 msgHi 2000000000
      7 0).1 ≠ .error err) ∧
    ((fun _ => none : TimeVault Int Int Nat (List Nat) → Option (TimeVault Int Int Nat (List Nat)))
        (SealStart sumPoly bcastFail 5 vault0 2000000000).2.2 = none →
      Seal intSuite sumPoly bcastFail 5 (fun _ => none) vault0 msgHi 2000000000 7 0
        = (.blocked, (SealStart sumPoly bcastFail 5 vault0 2000000000).2.2)) ∧
    (∀ tv2, (fun _ => none : TimeVault Int Int Nat (List Nat) →
        Option (TimeVault Int Int Nat (List Nat)))
        (SealStart sumPoly bcastFail 5 vault0 2000000000).2.2 = some tv2 →
      Seal intSuite sumPoly bcastFail 5 (fun _ => none) vault0 msgHi 2000000000 7 0
        = (SealFinish intSuite tv2 (sealSID vault0.index) msgHi 7 0, tv2)) :=
  seal_broadcast_rejected_logged intSuite sumPoly bcastFail 5 (fun _ => none) vault0 msgHi
    2000000000 7 0 "transport down" (by decide) rfl

/-! ## C5: Seal does not validate its arguments -/

/-- C5, the claim fails on node 0: Seal of the empty message with duration 0 returns no
error; it creates the registry entry for its sid with duration 0, broadcasts the deal and,
once the secret is ready, returns a ciphertext.  The same holds for a negative duration. -/
theorem seal_invalid_argument_counterexample :
    mapGet vault0.secrets "TVSS0" = none ∧
    (SealStart sumPoly bcastOk 5 vault0 0).2.1 = none ∧
    mapGet (SealStart sumPoly bcastOk 5 vault0 0).2.2.secrets "TVSS0" =
      some { secret := none, receiver := [], deals := [(0, 5)], numConfs := 0, duration := 0,
             expired := false } ∧
    (SealStart sumPoly bcastOk 5 vault0 0).2.2.sent = [Msg.SecInitMsg 0 "TVSS0" [5] 0] ∧
    (Seal intSuite sumPoly bcastOk 5
        (fun tv1 => some (finaliseSecret sumPoly bcastOk tv1 (sealSID 0)).2)
        vault0 [] 0 7 0).1 = .ok ("TVSS0", 7, 36) ∧
    (Seal intSuite sumPoly bcastOk 5
        (fun tv1 => some (finaliseSecret sumPoly bcastOk tv1 (sealSID 0)).2)
        vault0 msgHi (-1) 7 0).1 = .ok ("TVSS0", 7, 92523) := by
  decide

/-- C5 as amended: Seal has no argument check.  On every node state, for every message and
every duration, the empty message and the durations that are not greater than zero
included, Seal returns no error: after initSecret it goes on to the receive of the ready
signal, blocked there while no signal comes and continuing with the encryption when one
comes.  On a node whose registry has no entry for the sid of Seal, the call creates the
entry with the duration it was given and broadcasts the deal. -/
theorem seal_accepts_every_argument (su : Suite P S) (po : Poly P S D Rv)
    (bcast : Msg → Option String) (deal : D)
    (await : TimeVault P S D Rv → Option (TimeVault P S D Rv))
    (tv : TimeVault P S D Rv) (msg : Bytes) (duration : Int) (r : S) (ρ : Nat) :
    (SealStart po bcast deal tv duration).2.1 = none ∧
    (∀ err, (Seal su po bcast deal await tv msg duration r ρ).1 ≠ .error err) ∧
    (await (SealStart po bcast deal tv duration).2.2 = none →
      Seal su po bcast deal await tv msg duration r ρ
        = (.blocked, (SealStart po bcast deal tv duration).2.2)) ∧
    (∀ tv2, await (SealStart po bcast deal tv duration).2.2 = some tv2 →
      Seal su po bcast deal await tv msg duration r ρ
        = (SealFinish su tv2 (sealSID tv.index) msg r ρ, tv2)) ∧
    (mapGet tv.secrets (sealSID tv.index) = none →
      mapGet (SealStart po bcast deal tv duration).2.2.secrets (sealSID tv.index) =
        some { secret := none, receiver := po.newReceiver, deals := [(tv.index, deal)],
               numConfs := 0, duration := duration, expired := false } ∧
      (SealStart po bcast deal tv duration).2.2.sent =
        tv.sent ++ [Msg.SecInitMsg tv.index (sealSID tv.index) (po.marshalBinary deal)
          duration]) := by
  have hseal := Seal_eq su po bcast deal await tv msg duration r ρ
  refine ⟨initSecret_fst po bcast deal tv (sealSID tv.index) duration,
    fun err => Seal_ne_error su po bcast deal await tv msg duration r ρ err, ?_, ?_, ?_⟩
  · intro hawait
    rw [hseal]
    simp only [SealStart] at hawait ⊢
    rw [hawait]
  · intro tv2 hawait
    rw [hseal]
    simp only [SealStart] at hawait
    rw [hawait]
  · intro habsent
    have h := initSecret_absent po bcast deal tv (sealSID tv.index) duration habsent
    exact ⟨h.1, h.2.1⟩

/-- Witness of the amended C5: the empty message and duration 0, on the fresh node 0, where
the entry is created, and on node 0 after an earlier Seal, where the entry exists. -/
theorem seal_accepts_every_argument_witness :
    ((SealStart sumPoly bcastOk 5 vault0 0).2.1 = none ∧
      (∀ err, (Seal intSuite sumPoly bcastOk 5 (fun _ => none) vault0 [] 0 7 0).1
        ≠ .error err) ∧
      mapGet (SealStart sumPoly bcastOk 5 vault0 0).2.2.secrets (sealSID vault0.index) =
        some { secret := none, receiver := sumPoly.newReceiver, deals := [(vault0.index, 5)],
               numConfs := 0, duration := 0, expired := false } ∧
      (SealStart sumPoly bcastOk 5 vault0 0).2.2.sent =
        vault0.sent ++ [Msg.SecInitMsg vault0.index (sealSID vault0.index)
          (sumPoly.marshalBinary 5) 0]) ∧
    ((SealStart sumPoly bcastOk 5 vault2 0).2.1 = none ∧
      (∀ err, (Seal intSuite sumPoly bcastOk 5 (fun _ => none) vault2 [] 0 7 0).1
        ≠ .error err) ∧
      Seal intSuite sumPoly bcastOk 5 (fun _ => none) vault2 [] 0 7 0
        = (.blocked, (SealStart sumPoly bcastOk 5 vault2 0).2.2)) :=
  have h0 := seal_accepts_every_argument intSuite sumPoly bcastOk 5 (fun _ => none) vault0
    [] 0 7 0
  have h2 := seal_accepts_every_argument intSuite sumPoly bcastOk 5 (fun _ => none) vault2
    [] 0 7 0
  ⟨⟨h0.1, h0.2.1, (h0.2.2.2.2 (by decide)).1, (h0.2.2.2.2 (by decide)).2⟩,
    ⟨h2.1, h2.2.1, h2.2.2.1 rfl⟩⟩

/-! ## C6: the sid of Seal -/

/-- After `initSecret` the entry of the sid exists and holds a deal. -/
theorem initSecret_dealt_after (po : Poly P S D Rv) (bcast : Msg → Option String) (deal : D)
    (tv : TimeVault P S D Rv) (sid : SID) (duration : Int) :
    ∃ secret, mapGet (initSecret po bcast deal tv sid duration).2.secrets sid = some secret ∧
      secret.deals ≠ [] := by
  cases hentry : mapGet tv.secrets sid with
  | none =>
    exact ⟨_, (initSecret_absent po bcast deal tv sid duration hentry).1, by simp⟩
  | some secret =>
    by_cases hdeals : secret.deals = []
    · exact ⟨_, (initSecret_undealt po bcast deal tv sid duration secret hentry hdeals).1,
        by simp⟩
    · rw [initSecret_dealt po bcast deal tv sid duration secret hentry hdeals]
      exact ⟨secret, hentry, hdeals⟩

/-- The sid in a result of `Seal` is the sid made of TVSS and the index of the node. -/
theorem Seal_ok_sid (su : Suite P S) (po : Poly P S D Rv)
    (bcast : Msg → Option String) (deal : D)
    (await : TimeVault P S D Rv → Option (TimeVault P S D Rv))
    (tv tv2 : TimeVault P S D Rv) (msg : Bytes) (duration : Int) (r : S) (ρ : Nat)
    (sid : SID) (R C : P)
    (hseal : Seal su po bcast deal await tv msg duration r ρ = (.ok (sid, R, C), tv2)) :
    sid = sealSID tv.index := by
  rw [Seal_eq] at hseal
  cases hawait : await (initSecret po bcast deal tv (sealSID tv.index) duration).2 with
  | none => rw [hawait] at hseal; simp at hseal
  | some tv3 =>
    rw [hawait] at hseal
    simp only [Prod.mk.injEq] at hseal
    obtain ⟨hfin, _⟩ := hseal
    unfold SealFinish at hfin
    cases h1 : mapGet tv3.secrets (sealSID tv.index) with
    | none => rw [h1] at hfin; simp at hfin
    | some secret =>
      rw [h1] at hfin
      cases h2 : secret.secret with
      | none => simp [h2] at hfin
      | some ss =>
        simp only [h2, Outcome.ok.injEq, Prod.mk.injEq] at hfin
        exact hfin.1.symm


/-- C6, the claim fails on node 0: the first Seal returns sid TVSS0 and leaves the registry
with an entry for it; the second Seal on that node uses TVSS0 again, so its sid has a
registry entry before the call, and the call creates no entry and broadcasts nothing. -/
theorem seal_sid_reused_counterexample :
    Seal intSuite sumPoly bcastOk 5
        (fun tv1 => some (finaliseSecret sumPoly bcastOk tv1 (sealSID 0)).2)
        vault0 msgHi 2000000000 7 0 = (.ok ("TVSS0", 7, 92523), vault2) ∧
    (SealStart sumPoly bcastOk 6 vault2 2000000000).1 = "TVSS0" ∧
    mapGet vault2.secrets "TVSS0" ≠ none ∧
    (SealStart sumPoly bcastOk 6 vault2 2000000000).2.2 = vault2 := by
  decide

/-- C6 as amended: every Seal call on a node uses the sid made of TVSS and the index of
the node, so successive Seal calls on a node use the same sid.  A Seal call on a node whose
registry has no entry for that sid starts exactly one new DKG instance: it creates that
entry, leaves every other entry alone and broadcasts one SecInit with the deal of the node.
A Seal call on a node whose registry holds the entry with a deal creates nothing and
broadcasts nothing, and that is the case for a Seal call that follows another one. -/
theorem seal_sid_of_index (po : Poly P S D Rv) (bcast bcast2 : Msg → Option String)
    (deal deal2 : D) (tv : TimeVault P S D Rv) (duration duration2 : Int) :
    (SealStart po bcast deal tv duration).1 = sealSID tv.index ∧
    (SealStart po bcast2 deal2 (SealStart po bcast deal tv duration).2.2 duration2).1
      = (SealStart po bcast deal tv duration).1 ∧
    (SealStart po bcast2 deal2 (SealStart po bcast deal tv duration).2.2 duration2).2.2
      = (SealStart po bcast deal tv duration).2.2 ∧
    (mapGet tv.secrets (sealSID tv.index) = none →
      mapGet (SealStart po bcast deal tv duration).2.2.secrets (sealSID tv.index) =
        some { secret := none, receiver := po.newReceiver, deals := [(tv.index, deal)],
               numConfs := 0, duration := duration, expired := false } ∧
      (∀ sid, sid ≠ sealSID tv.index →
        mapGet (SealStart po bcast deal tv duration).2.2.secrets sid = mapGet tv.secrets sid) ∧
      (SealStart po bcast deal tv duration).2.2.sent =
        tv.sent ++ [Msg.SecInitMsg tv.index (sealSID tv.index) (po.marshalBinary deal)
          duration]) ∧
    (∀ secret, mapGet tv.secrets (sealSID tv.index) = some secret → secret.deals ≠ [] →
      (SealStart po bcast deal tv duration).2.2 = tv) := by
  obtain ⟨secret1, hentry1, hdeals1⟩ :=
    initSecret_dealt_after po bcast deal tv (sealSID tv.index) duration
  have hindex := (initSecret_frame po bcast deal tv (sealSID tv.index) duration).1
  refine ⟨rfl, ?_, ?_, ?_, ?_⟩
  · simp only [SealStart, hindex]
  · simp only [SealStart, hindex]
    rw [initSecret_dealt po bcast2 deal2 _ (sealSID tv.index) duration2 secret1 hentry1
      hdeals1]
  · intro habsent
    have h := initSecret_absent po bcast deal tv (sealSID tv.index) duration habsent
    exact ⟨h.1, h.2.2, h.2.1⟩
  · intro secret hentry hdeals
    simp only [SealStart]
    rw [initSecret_dealt po bcast deal tv (sealSID tv.index) duration secret hentry hdeals]

/-- Successive Seal calls on a node return the same sid: the second call, made on a later
state of the node (same index), returns the sid the first one returned. -/
theorem seal_twice_same_sid (su : Suite P S) (po : Poly P S D Rv)
    (bcast bcast2 : Msg → Option String) (deal deal2 : D)
    (await await2 : TimeVault P S D Rv → Option (TimeVault P S D Rv))
    (tv tv1 tv2 tv3 : TimeVault P S D Rv) (msg msg2 : Bytes) (duration duration2 : Int)
    (r r2 : S) (ρ ρ2 : Nat) (sid sid2 : SID) (R C R2 C2 : P)
    (hfirst : Seal su po bcast deal await tv msg duration r ρ = (.ok (sid, R, C), tv1))
    (hindex : tv2.index = tv.index)
    (hsecond : Seal su po bcast2 deal2 await2 tv2 msg2 duration2 r2 ρ2
      = (.ok (sid2, R2, C2), tv3)) :
    sid2 = sid := by
  rw [Seal_ok_sid su po bcast deal await tv tv1 msg duration r ρ sid R C hfirst,
    Seal_ok_sid su po bcast2 deal2 await2 tv2 tv3 msg2 duration2 r2 ρ2 sid2 R2 C2 hsecond,
    hindex]

/-- Witness of the amended C6 on node 0: the first call creates the entry of TVSS0 and
broadcasts one SecInit, a call that follows uses TVSS0 again and changes nothing. -/
theorem seal_sid_of_index_witness :
    (SealStart sumPoly bcastOk 5 vault0 2000000000).1 = sealSID vault0.index ∧
    (SealStart sumPoly bcastOk 6 (SealStart sumPoly bcastOk 5 vault0 2000000000).2.2 7).1
      = (SealStart sumPoly bcastOk 5 vault0 2000000000).1 ∧
    (SealStart sumPoly bcastOk 6 (SealStart sumPoly bcastOk 5 vault0 2000000000).2.2 7).2.2
      = (SealStart sumPoly bcastOk 5 vault0 2000000000).2.2 ∧
    mapGet (SealStart sumPoly bcastOk 5 vault0 2000000000).2.2.secrets (sealSID vault0.index)
      = some { secret := none, receiver := sumPoly.newReceiver, deals := [(vault0.index, 5)],
               numConfs := 0, duration := 2000000000, expired := false } ∧
    (SealStart sumPoly bcastOk 5 vault0 2000000000).2.2.sent =
      vault0.sent ++ [Msg.SecInitMsg vault0.index (sealSID vault0.index)
        (sumPoly.marshalBinary 5) 2000000000] ∧
    (SealStart sumPoly bcastOk 6 vault2 7).2.2 = vault2 :=
  have h := seal_sid_of_index sumPoly bcastOk bcastOk 5 6 vault0 2000000000 7
  have h2 := seal_sid_of_index sumPoly bcastOk bcastOk 6 6 vault2 7 7
  ⟨h.1, h.2.1, h.2.2.1, (h.2.2.2.1 (by decide)).1, (h.2.2.2.1 (by decide)).2.2,
    h2.2.2.2.2 _ (by decide : mapGet vault2.secrets (sealSID vault2.index) = some
      { secret := some { pub := 5, share := 5, index := 0 }, receiver := [5],
        deals := [(0, 5)], numConfs := 1, duration := 2000000000, expired := false })
      (by decide)⟩
/-! ## What the operations keep of the registry -/

theorem incInt_ge (n : Int) (h : n < 9223372036854775807) : n ≤ incInt n := by
  unfold incInt wrapInt64
  omega

theorem incInt_eq (n : Int) (hlo : -9223372036854775808 ≤ n) (hhi : n < 9223372036854775807) :
    incInt n = n + 1 := by
  unfold incInt wrapInt64
  omega

theorem entryLe_refl (e : Secret P S D Rv) : EntryLe e e :=
  ⟨fun h => h, rfl, fun _ => rfl⟩

theorem registryLe_refl (m : List (SID × Secret P S D Rv)) : RegistryLe m m :=
  fun _ e h => ⟨e, h, entryLe_refl e⟩

theorem entryLe_trans {e e1 e2 : Secret P S D Rv} (h : EntryLe e e1) (h1 : EntryLe e1 e2) :
    EntryLe e e2 := by
  obtain ⟨ha, hc, hd⟩ := h
  obtain ⟨ha1, hc1, hd1⟩ := h1
  refine ⟨fun hx => ha1 (ha hx), hc1.trans hc, fun hx => ?_⟩
  have h2 := hd hx
  rw [← h2]
  exact hd1 (by rw [h2]; exact hx)

theorem registryLe_trans {m m1 m2 : List (SID × Secret P S D Rv)} (h : RegistryLe m m1)
    (h1 : RegistryLe m1 m2) : RegistryLe m m2 := by
  intro sid e he
  obtain ⟨e1, he1, hle⟩ := h sid e he
  obtain ⟨e2, he2, hle1⟩ := h1 sid e1 he1
  exact ⟨e2, he2, entryLe_trans hle hle1⟩

theorem entryStep_refl (e : Secret P S D Rv) : EntryStep e e :=
  ⟨entryLe_refl e, Or.inl rfl⟩

theorem registryStep_refl (m : List (SID × Secret P S D Rv)) : RegistryStep m m :=
  fun _ e h => ⟨e, h, entryStep_refl e⟩

theorem registryStep_le {m m1 : List (SID × Secret P S D Rv)} (h : RegistryStep m m1) :
    RegistryLe m m1 := by
  intro sid e he
  obtain ⟨e1, he1, hle, _⟩ := h sid e he
  exact ⟨e1, he1, hle⟩

/-- Writing a sid that had no entry, once or twice, leaves every entry as it was. -/
theorem registryStep_mapSet_absent (m m1 : List (SID × Secret P S D Rv)) (sid : SID)
    (habsent : mapGet m sid = none)
    (hother : ∀ sid1, sid1 ≠ sid → mapGet m1 sid1 = mapGet m sid1) : RegistryStep m m1 := by
  intro sid1 e he
  have hne : sid1 ≠ sid := by
    intro h
    rw [h, habsent] at he
    cases he
  exact ⟨e, by rw [hother sid1 hne]; exact he, entryStep_refl e⟩

/-- Writing back an entry that keeps the old one keeps every entry. -/
theorem registryStep_mapSet_entry (m : List (SID × Secret P S D Rv)) (sid : SID)
    (e e1 : Secret P S D Rv) (hentry : mapGet m sid = some e) (hstep : EntryStep e e1) :
    RegistryStep m (mapSet m sid e1) := by
  intro sid1 e2 he
  by_cases hsid : sid1 = sid
  · subst hsid
    rw [hentry] at he
    cases he
    exact ⟨e1, mapGet_mapSet_self _ _ _, hstep⟩
  · exact ⟨e2, by rw [mapGet_mapSet_ne _ _ _ _ hsid]; exact he, entryStep_refl e2⟩

theorem initSecret_registryStep (po : Poly P S D Rv) (bcast : Msg → Option String) (deal : D)
    (tv : TimeVault P S D Rv) (sid : SID) (duration : Int) :
    RegistryStep tv.secrets (initSecret po bcast deal tv sid duration).2.secrets := by
  cases hentry : mapGet tv.secrets sid with
  | none =>
    exact registryStep_mapSet_absent _ _ sid hentry
      (initSecret_absent po bcast deal tv sid duration hentry).2.2
  | some secret =>
    by_cases hdeals : secret.deals = []
    · have h := initSecret_undealt po bcast deal tv sid duration secret hentry hdeals
      intro sid1 e he
      by_cases hsid : sid1 = sid
      · subst hsid
        rw [hentry] at he
        cases he
        exact ⟨_, h.1, ⟨fun hx => hx, rfl, fun hx => absurd hdeals hx⟩, Or.inl rfl⟩
      · exact ⟨e, by rw [h.2.2 sid1 hsid]; exact he, entryStep_refl e⟩
    · rw [initSecret_dealt po bcast deal tv sid duration secret hentry hdeals]
      exact registryStep_refl _

theorem finaliseSecret_registryStep (po : Poly P S D Rv) (bcast : Msg → Option String)
    (tv : TimeVault P S D Rv) (sid : SID) :
    RegistryStep tv.secrets (finaliseSecret po bcast tv sid).2.secrets := by
  unfold finaliseSecret
  cases hentry : mapGet tv.secrets sid with
  | none => exact registryStep_refl _
  | some secret =>
    simp only
    split
    · split
      · exact registryStep_mapSet_entry tv.secrets sid secret _ hentry
          ⟨⟨fun h => h, rfl, fun _ => rfl⟩, Or.inl rfl⟩
      · split
        · exact registryStep_mapSet_entry tv.secrets sid secret _ hentry
            ⟨⟨fun h => h, rfl, fun _ => rfl⟩, Or.inl rfl⟩
        · have h2 := registryStep_mapSet_entry tv.secrets sid secret
            { secret with receiver := ‹Rv›, secret := some ‹SharedSecret P S›,
                          numConfs := incInt secret.numConfs } hentry
            ⟨⟨fun h => h, rfl, fun _ => rfl⟩, Or.inr rfl⟩
          cases bcast (Msg.SecConfMsg tv.index sid) <;> exact h2
    · exact registryStep_refl _

theorem timerFire_registryStep (tv : TimeVault P S D Rv) (sid : SID) :
    RegistryStep tv.secrets (timerFire tv sid).secrets := by
  unfold timerFire
  split
  · exact registryStep_refl _
  · split
    · exact registryStep_refl _
    · rename_i secret hentry
      exact registryStep_mapSet_entry tv.secrets sid secret _ hentry
        ⟨⟨fun _ => rfl, rfl, fun _ => rfl⟩, Or.inl rfl⟩

theorem Open_secrets (su : Suite P S) (bcast : Msg → Option String) (recv : Option S)
    (tv : TimeVault P S D Rv) (sid : SID) (key ct : P) :
    (Open su bcast recv tv sid key ct).2.secrets = tv.secrets := by
  unfold Open
  dsimp only
  repeat (first | rfl | split)

theorem step_registryStep {su : Suite P S} {po : Poly P S D Rv} {tv tv1 : TimeVault P S D Rv}
    (h : Step su po tv tv1) : RegistryStep tv.secrets tv1.secrets := by
  cases h with
  | sealStart bcast deal _ duration => exact initSecret_registryStep po bcast deal tv _ duration
  | openCall bcast recv _ sid key ct =>
    rw [Open_secrets]
    exact registryStep_refl _
  | initSecretCall bcast deal _ sid duration =>
    exact initSecret_registryStep po bcast deal tv sid duration
  | finaliseSecretCall bcast _ sid => exact finaliseSecret_registryStep po bcast tv sid
  | timerFired _ sid => exact timerFire_registryStep tv sid

theorem initSecret_registryLe (po : Poly P S D Rv) (bcast : Msg → Option String) (deal : D)
    (tv : TimeVault P S D Rv) (sid : SID) (duration : Int) :
    RegistryLe tv.secrets (initSecret po bcast deal tv sid duration).2.secrets :=
  registryStep_le (initSecret_registryStep po bcast deal tv sid duration)

theorem step_registryLe {su : Suite P S} {po : Poly P S D Rv} {tv tv1 : TimeVault P S D Rv}
    (h : Step su po tv tv1) : RegistryLe tv.secrets tv1.secrets :=
  registryStep_le (step_registryStep h)

theorem run_registryLe {su : Suite P S} {po : Poly P S D Rv} {tv tv1 : TimeVault P S D Rv}
    (h : Relation.ReflTransGen (Step su po) tv tv1) : RegistryLe tv.secrets tv1.secrets := by
  induction h with
  | refl => exact registryLe_refl _
  | tail _ hstep ih => exact registryLe_trans ih (step_registryLe hstep)

/-! ## C7: monotonicity of the registry -/

/-- C7, the claim fails for the confirmation count: on node 0 with an entry whose numConfs
is 2^63 - 1, the largest Go int, the call finaliseSecret fires and its increment wraps
numConfs around to -2^63, so the count decreases. -/
theorem registry_numConfs_wraps_counterexample :
    Step intSuite sumPoly vaultMaxConfs (finaliseSecret sumPoly bcastOk vaultMaxConfs "TVSS0").2 ∧
    mapGet vaultMaxConfs.secrets "TVSS0" =
      some { secret := none, receiver := [], deals := [(0, 5)],
             numConfs := 9223372036854775807, duration := 2000000000, expired := false } ∧
    mapGet (finaliseSecret sumPoly bcastOk vaultMaxConfs "TVSS0").2.secrets "TVSS0" =
      some { secret := some { pub := 5, share := 5, index := 0 }, receiver := [5],
             deals := [(0, 5)], numConfs := -9223372036854775808, duration := 2000000000,
             expired := false } ∧
    ¬ ((9223372036854775807 : Int) ≤ -9223372036854775808) :=
  ⟨Step.finaliseSecretCall bcastOk vaultMaxConfs "TVSS0", by decide, by decide, by decide⟩

/-- C7 as amended: for every operation of the protocol instance (Seal, whose writes are
those before its receive, Open, initSecret, finaliseSecret and the firing of a timer) and
every registry entry, the entry is still in the registry afterwards and its expired flag
has not gone from true to false; its confirmation count numConfs is the one from before or
that one incremented once as a Go int, so it has not decreased when it was below the
largest int 2^63 - 1. -/
theorem registry_monotone (su : Suite P S) (po : Poly P S D Rv) (tv tv1 : TimeVault P S D Rv)
    (sid : SID) (e : Secret P S D Rv) (hstep : Step su po tv tv1)
    (hentry : mapGet tv.secrets sid = some e) :
    ∃ e1, mapGet tv1.secrets sid = some e1 ∧ (e.expired = true → e1.expired = true) ∧
      (e1.numConfs = e.numConfs ∨ e1.numConfs = incInt e.numConfs) ∧
      (e.numConfs < 9223372036854775807 → e.numConfs ≤ e1.numConfs) := by
  obtain ⟨e1, he1, ⟨hexp, _, _⟩, hconf⟩ := step_registryStep hstep sid e hentry
  refine ⟨e1, he1, hexp, hconf, fun hlt => ?_⟩
  rcases hconf with h | h
  · rw [h]
  · rw [h]
    exact incInt_ge _ hlt

/-- Witness of the amended C7: the finaliseSecret call that takes node 0 from no
confirmation to one. -/
theorem registry_monotone_witness :
    ∃ e1, mapGet vault2.secrets "TVSS0" = some e1 ∧ ((false = true) → e1.expired = true) ∧
      (e1.numConfs = 0 ∨ e1.numConfs = incInt 0) ∧
      ((0 : Int) < 9223372036854775807 → (0 : Int) ≤ e1.numConfs) :=
  registry_monotone intSuite sumPoly vault1 vault2 "TVSS0"
    { secret := none, receiver := [], deals := [(0, 5)], numConfs := 0,
      duration := 2000000000, expired := false }
    (Step.finaliseSecretCall bcastOk vault1 (sealSID 0)) (by decide)

/-- Along every run of operations an entry stays in the registry and its expired flag is
not reset. -/
theorem registry_monotone_run (su : Suite P S) (po : Poly P S D Rv)
    (tv tv1 : TimeVault P S D Rv) (sid : SID) (e : Secret P S D Rv)
    (hrun : Relation.ReflTransGen (Step su po) tv tv1)
    (hentry : mapGet tv.secrets sid = some e) :
    ∃ e1, mapGet tv1.secrets sid = some e1 ∧ (e.expired = true → e1.expired = true) := by
  obtain ⟨e1, he1, hexp, _, _⟩ := run_registryLe hrun sid e hentry
  exact ⟨e1, he1, hexp⟩

/-- A whole call of Seal keeps the registry when what runs on the node while Seal waits
keeps it. -/
theorem Seal_registryLe (su : Suite P S) (po : Poly P S D Rv)
    (bcast : Msg → Option String) (deal : D)
    (await : TimeVault P S D Rv → Option (TimeVault P S D Rv))
    (tv : TimeVault P S D Rv) (msg : Bytes) (duration : Int) (r : S) (ρ : Nat)
    (henv : ∀ t t1, await t = some t1 → RegistryLe t.secrets t1.secrets) :
    RegistryLe tv.secrets (Seal su po bcast deal await tv msg duration r ρ).2.secrets := by
  rw [Seal_eq]
  have h := initSecret_registryLe po bcast deal tv (sealSID tv.index) duration
  cases hawait : await (initSecret po bcast deal tv (sealSID tv.index) duration).2 with
  | none => exact h
  | some tv2 => exact registryLe_trans h (henv _ _ hawait)

/-! ## C8: initSecret on an existing entry -/

/-- C8: for a sid that has a registry entry, initSecret with any duration keeps the entry:
its duration, expired flag, confirmation count, shared secret and receiver are unchanged
(the duration that is supplied is ignored), the other entries are unchanged, and a second
call changes nothing more. -/
theorem initSecret_idempotent (po : Poly P S D Rv) (bcast bcast2 : Msg → Option String)
    (deal deal2 : D) (tv : TimeVault P S D Rv) (sid : SID) (duration duration2 : Int)
    (secret : Secret P S D Rv) (hentry : mapGet tv.secrets sid = some secret) :
    (∃ secret1, mapGet (initSecret po bcast deal tv sid duration).2.secrets sid = some secret1 ∧
      secret1.duration = secret.duration ∧ secret1.expired = secret.expired ∧
      secret1.numConfs = secret.numConfs ∧ secret1.secret = secret.secret ∧
      secret1.receiver = secret.receiver) ∧
    (∀ sid1, sid1 ≠ sid →
      mapGet (initSecret po bcast deal tv sid duration).2.secrets sid1
        = mapGet tv.secrets sid1) ∧
    (initSecret po bcast2 deal2 (initSecret po bcast deal tv sid duration).2 sid duration2).2
      = (initSecret po bcast deal tv sid duration).2 := by
  refine ⟨?_, ?_, ?_⟩
  · by_cases hdeals : secret.deals = []
    · exact ⟨_, (initSecret_undealt po bcast deal tv sid duration secret hentry hdeals).1,
        rfl, rfl, rfl, rfl, rfl⟩
    · rw [initSecret_dealt po bcast deal tv sid duration secret hentry hdeals]
      exact ⟨secret, hentry, rfl, rfl, rfl, rfl, rfl⟩
  · intro sid1 hne
    by_cases hdeals : secret.deals = []
    · exact (initSecret_undealt po bcast deal tv sid duration secret hentry hdeals).2.2 sid1 hne
    · rw [initSecret_dealt po bcast deal tv sid duration secret hentry hdeals]
  · obtain ⟨secret1, hentry1, hdeals1⟩ := initSecret_dealt_after po bcast deal tv sid duration
    rw [initSecret_dealt po bcast2 deal2 _ sid duration2 secret1 hentry1 hdeals1]

/-- Witness of C8: initSecret with duration 7 on node 0, whose entry has duration 2 s. -/
theorem initSecret_idempotent_witness :
    (∃ secret1, mapGet (initSecret sumPoly bcastOk 6 vault2 "TVSS0" 7).2.secrets "TVSS0"
        = some secret1 ∧
      secret1.duration = 2000000000 ∧ secret1.expired = false ∧
      secret1.numConfs = 1 ∧ secret1.secret = some { pub := 5, share := 5, index := 0 } ∧
      secret1.receiver = [5]) ∧
    (∀ sid1, sid1 ≠ "TVSS0" →
      mapGet (initSecret sumPoly bcastOk 6 vault2 "TVSS0" 7).2.secrets sid1
        = mapGet vault2.secrets sid1) ∧
    (initSecret sumPoly bcastFail 8 (initSecret sumPoly bcastOk 6 vault2 "TVSS0" 7).2
        "TVSS0" 9).2
      = (initSecret sumPoly bcastOk 6 vault2 "TVSS0" 7).2 :=
  initSecret_idempotent sumPoly bcastOk bcastFail 6 8 vault2 "TVSS0" 7 9
    { secret := some { pub := 5, share := 5, index := 0 }, receiver := [5], deals := [(0, 5)],
      numConfs := 1, duration := 2000000000, expired := false }
    (by decide)

/-! ## C9: the own deal is dealt once -/

/-- C9: the first initSecret for a sid without a registry entry stores the deal of the node
under its own index and broadcasts exactly one message, the SecInit with that deal.  After
any run of operations of the instance from there, an initSecret for the sid returns with
the whole state as it was, so it broadcasts nothing, and the deals map of the entry is
still the one the first call left. -/
theorem own_deal_once (su : Suite P S) (po : Poly P S D Rv) (bcast : Msg → Option String)
    (deal : D) (tv : TimeVault P S D Rv) (sid : SID) (duration : Int)
    (habsent : mapGet tv.secrets sid = none) :
    (∃ secret1, mapGet (initSecret po bcast deal tv sid duration).2.secrets sid = some secret1 ∧
      secret1.deals = [(tv.index, deal)] ∧ mapGet secret1.deals tv.index = some deal) ∧
    (initSecret po bcast deal tv sid duration).2.sent
      = tv.sent ++ [Msg.SecInitMsg tv.index sid (po.marshalBinary deal) duration] ∧
    (∀ tv2, Relation.ReflTransGen (Step su po) (initSecret po bcast deal tv sid duration).2 tv2 →
      ∀ (bcast2 : Msg → Option String) (deal2 : D) (duration2 : Int),
        initSecret po bcast2 deal2 tv2 sid duration2 = (none, tv2) ∧
        ∃ secret2, mapGet tv2.secrets sid = some secret2 ∧
          secret2.deals = [(tv.index, deal)]) := by
  have h := initSecret_absent po bcast deal tv sid duration habsent
  refine ⟨⟨_, h.1, rfl, by simp [mapGet]⟩, h.2.1, ?_⟩
  intro tv2 hrun bcast2 deal2 duration2
  obtain ⟨secret2, hentry2, _, _, hdeals⟩ := run_registryLe hrun sid _ h.1
  have hdeals2 : secret2.deals = [(tv.index, deal)] := hdeals (by simp)
  refine ⟨initSecret_dealt po bcast2 deal2 tv2 sid duration2 secret2 hentry2 ?_,
    secret2, hentry2, hdeals2⟩
  rw [hdeals2]
  simp

/-- Witness of C9: the first initSecret for TVSS0 on the fresh node 0. -/
theorem own_deal_once_witness :
    (∃ secret1, mapGet (initSecret sumPoly bcastOk 5 vault0 "TVSS0" 2000000000).2.secrets
        "TVSS0" = some secret1 ∧
      secret1.deals = [(vault0.index, 5)] ∧ mapGet secret1.deals vault0.index = some 5) ∧
    (initSecret sumPoly bcastOk 5 vault0 "TVSS0" 2000000000).2.sent
      = vault0.sent ++ [Msg.SecInitMsg vault0.index "TVSS0" (sumPoly.marshalBinary 5)
          2000000000] ∧
    (∀ tv2, Relation.ReflTransGen (Step intSuite sumPoly)
        (initSecret sumPoly bcastOk 5 vault0 "TVSS0" 2000000000).2 tv2 →
      ∀ (bcast2 : Msg → Option String) (deal2 : Nat) (duration2 : Int),
        initSecret sumPoly bcast2 deal2 tv2 "TVSS0" duration2 = (none, tv2) ∧
        ∃ secret2, mapGet tv2.secrets "TVSS0" = some secret2 ∧
          secret2.deals = [(vault0.index, 5)]) :=
  own_deal_once intSuite sumPoly bcastOk 5 vault0 "TVSS0" 2000000000 (by decide)

/-! ## C10: how often finaliseSecret fires -/

/-- One call of `finaliseSecret` on an existing entry either fires (it sets the shared
secret, counts the own confirmation, broadcasts SecConf and arms the timer, all once) or
does none of the four; the deals, the duration, the index and the thresholds stay. -/
theorem finaliseSecret_fires_or_not (po : Poly P S D Rv) (bcast : Msg → Option String)
    (tv : TimeVault P S D Rv) (sid : SID) (e : Secret P S D Rv)
    (hentry : mapGet tv.secrets sid = some e) :
    ∃ e1, mapGet (finaliseSecret po bcast tv sid).2.secrets sid = some e1 ∧
      e1.duration = e.duration ∧ e1.deals = e.deals ∧
      (finaliseSecret po bcast tv sid).2.index = tv.index ∧
      (finaliseSecret po bcast tv sid).2.info = tv.info ∧
      ((e1.secret = e.secret ∧ e1.numConfs = e.numConfs ∧
          (finaliseSecret po bcast tv sid).2.sent = tv.sent ∧
          (finaliseSecret po bcast tv sid).2.timers = tv.timers) ∨
       ((∃ sec, e1.secret = some sec) ∧ e1.numConfs = incInt e.numConfs ∧
          (finaliseSecret po bcast tv sid).2.sent = tv.sent ++ [Msg.SecConfMsg tv.index sid] ∧
          (finaliseSecret po bcast tv sid).2.timers = tv.timers ++ [(sid, e.duration)] ∧
          (e.deals.length : Int) = tv.info.T)) := by
  unfold finaliseSecret
  simp only [hentry]
  by_cases hT : (e.deals.length : Int) = tv.info.T
  · rw [if_pos hT]
    rcases hadd : addDeals po tv.index e.receiver e.deals with ⟨err, rv⟩
    cases err with
    | some err =>
      exact ⟨_, mapGet_mapSet_self _ _ _, rfl, rfl, rfl, rfl, Or.inl ⟨rfl, rfl, rfl, rfl⟩⟩
    | none =>
      simp only
      cases hprod : po.produceSharedSecret rv with
      | error err =>
        exact ⟨_, mapGet_mapSet_self _ _ _, rfl, rfl, rfl, rfl, Or.inl ⟨rfl, rfl, rfl, rfl⟩⟩
      | ok sec =>
        simp only
        cases bcast (Msg.SecConfMsg tv.index sid) with
        | none =>
          exact ⟨_, mapGet_mapSet_self _ _ _, rfl, rfl, rfl, rfl,
            Or.inr ⟨⟨sec, rfl⟩, rfl, rfl, rfl, hT⟩⟩
        | some err =>
          exact ⟨_, mapGet_mapSet_self _ _ _, rfl, rfl, rfl, rfl,
            Or.inr ⟨⟨sec, rfl⟩, rfl, rfl, rfl, hT⟩⟩
  · rw [if_neg hT]
    exact ⟨e, hentry, rfl, rfl, rfl, rfl, Or.inl ⟨rfl, rfl, rfl, rfl⟩⟩

/-- A call of `finaliseSecret` on an entry with T deals that the receiver all accepts and
from which it produces the shared secret `sec` fires: it stores `sec`, counts the own
confirmation, broadcasts SecConf and arms the timer. -/
theorem finaliseSecret_fires (po : Poly P S D Rv) (bcast : Msg → Option String)
    (tv : TimeVault P S D Rv) (sid : SID) (e : Secret P S D Rv) (rv : Rv)
    (sec : SharedSecret P S)
    (hentry : mapGet tv.secrets sid = some e)
    (hT : (e.deals.length : Int) = tv.info.T)
    (hadd : addDeals po tv.index e.receiver e.deals = (none, rv))
    (hprod : po.produceSharedSecret rv = .ok sec) :
    (finaliseSecret po bcast tv sid).1 = none ∧
    mapGet (finaliseSecret po bcast tv sid).2.secrets sid =
      some { e with receiver := rv, secret := some sec, numConfs := incInt e.numConfs } ∧
    (finaliseSecret po bcast tv sid).2.sent = tv.sent ++ [Msg.SecConfMsg tv.index sid] ∧
    (finaliseSecret po bcast tv sid).2.timers = tv.timers ++ [(sid, e.duration)] := by
  unfold finaliseSecret
  simp only [hentry]
  rw [if_pos hT]
  simp only [hadd, hprod]
  cases bcast (Msg.SecConfMsg tv.index sid) with
  | none => exact ⟨trivial, mapGet_mapSet_self _ _ _, rfl, rfl⟩
  | some err => exact ⟨trivial, mapGet_mapSet_self _ _ _, rfl, rfl⟩

/-- Increments of a Go `int` that stay within its range are plain additions. -/
theorem iterate_incInt_eq (k : Nat) (n : Int) (hlo : -9223372036854775808 ≤ n)
    (hhi : n + k ≤ 9223372036854775807) : Nat.iterate incInt k n = n + k := by
  induction k generalizing n with
  | zero => simp
  | succ k ih =>
    rw [Function.iterate_succ_apply]
    have hinc : incInt n = n + 1 := incInt_eq n hlo (by push_cast at hhi; omega)
    rw [hinc, ih (n + 1) (by omega) (by push_cast at hhi ⊢; omega)]
    push_cast
    ring

/-- C10, the claim fails on node 0 (T = 1, one deal held): two finaliseSecret calls for
TVSS0 both fire.  The first sets the shared secret, counts a confirmation, broadcasts
SecConf and arms a timer; the second sets the shared secret again (to another value),
counts a second confirmation, broadcasts a second SecConf and arms a second timer. -/
theorem finaliseSecret_fires_twice_counterexample :
    vault1.info.T = 1 ∧
    mapGet vault1.secrets "TVSS0" =
      some { secret := none, receiver := [], deals := [(0, 5)], numConfs := 0,
             duration := 2000000000, expired := false } ∧
    mapGet (finaliseSecrets sumPoly vault1 "TVSS0" [bcastOk]).secrets "TVSS0" =
      some { secret := some { pub := 5, share := 5, index := 0 }, receiver := [5],
             deals := [(0, 5)], numConfs := 1, duration := 2000000000, expired := false } ∧
    mapGet (finaliseSecrets sumPoly vault1 "TVSS0" [bcastOk, bcastOk]).secrets "TVSS0" =
      some { secret := some { pub := 10, share := 10, index := 0 }, receiver := [5, 5],
             deals := [(0, 5)], numConfs := 2, duration := 2000000000, expired := false } ∧
    (finaliseSecrets sumPoly vault1 "TVSS0" [bcastOk, bcastOk]).sent =
      vault1.sent ++ [Msg.SecConfMsg 0 "TVSS0", Msg.SecConfMsg 0 "TVSS0"] ∧
    (finaliseSecrets sumPoly vault1 "TVSS0" [bcastOk, bcastOk]).timers =
      [("TVSS0", 2000000000), ("TVSS0", 2000000000)] := by
  decide

/-- C10 as amended: finaliseSecret fires at most once per call, not once per entry.  For
every sequence of finaliseSecret(sid) calls on an existing entry there is a number k of
calls that fired, at most the number of calls, such that numConfs was incremented k times
as a Go int (it has grown by k when that stays within the range of an int), exactly k
SecConf messages were broadcast and exactly k timers were armed, each with the duration of
the entry.  When no call fired the shared secret is the one from before; when a call fired
the shared secret is set and the entry holds T deals.  The first call of the sequence fires
when the entry holds T deals, the receiver accepts them all and ProduceSharedSecret
succeeds. -/
theorem finaliseSecrets_at_most_once_per_call (po : Poly P S D Rv)
    (bcasts : List (Msg → Option String)) (tv : TimeVault P S D Rv) (sid : SID)
    (e : Secret P S D Rv) (hentry : mapGet tv.secrets sid = some e) :
    ∃ e1 k, mapGet (finaliseSecrets po tv sid bcasts).secrets sid = some e1 ∧
      k ≤ bcasts.length ∧
      e1.numConfs = Nat.iterate incInt k e.numConfs ∧
      (-9223372036854775808 ≤ e.numConfs → e.numConfs + k ≤ 9223372036854775807 →
        e1.numConfs = e.numConfs + k) ∧
      (finaliseSecrets po tv sid bcasts).sent
        = tv.sent ++ List.replicate k (Msg.SecConfMsg tv.index sid) ∧
      (finaliseSecrets po tv sid bcasts).timers
        = tv.timers ++ List.replicate k (sid, e.duration) ∧
      (k = 0 → e1.secret = e.secret) ∧
      (0 < k → ∃ sec, e1.secret = some sec) ∧
      (0 < k → (e.deals.length : Int) = tv.info.T) ∧
      (∀ rv sec, bcasts ≠ [] → (e.deals.length : Int) = tv.info.T →
        addDeals po tv.index e.receiver e.deals = (none, rv) →
        po.produceSharedSecret rv = .ok sec → 0 < k) := by
  suffices hmain : ∃ e1 k, mapGet (finaliseSecrets po tv sid bcasts).secrets sid = some e1 ∧
      k ≤ bcasts.length ∧
      e1.numConfs = Nat.iterate incInt k e.numConfs ∧
      (finaliseSecrets po tv sid bcasts).sent
        = tv.sent ++ List.replicate k (Msg.SecConfMsg tv.index sid) ∧
      (finaliseSecrets po tv sid bcasts).timers
        = tv.timers ++ List.replicate k (sid, e.duration) ∧
      (k = 0 → e1.secret = e.secret) ∧
      (0 < k → ∃ sec, e1.secret = some sec) ∧
      (0 < k → (e.deals.length : Int) = tv.info.T) ∧
      (∀ rv sec, bcasts ≠ [] → (e.deals.length : Int) = tv.info.T →
        addDeals po tv.index e.receiver e.deals = (none, rv) →
        po.produceSharedSecret rv = .ok sec → 0 < k) by
    obtain ⟨e1, k, h1, h2, h3, h4, h5, h6, h7, h8, h9⟩ := hmain
    exact ⟨e1, k, h1, h2, h3,
      fun hlo hhi => by rw [h3]; exact iterate_incInt_eq k _ hlo hhi, h4, h5, h6, h7, h8, h9⟩
  induction bcasts generalizing tv e with
  | nil =>
    exact ⟨e, 0, hentry, le_refl _, rfl, by simp [finaliseSecrets],
      by simp [finaliseSecrets], fun _ => rfl, fun h => absurd h (lt_irrefl 0),
      fun h => absurd h (lt_irrefl 0), fun _ _ h => absurd rfl h⟩
  | cons bcast bcasts ih =>
    obtain ⟨e1, hentry1, hdur, hdeals, hidx, hinfo, hcase⟩ :=
      finaliseSecret_fires_or_not po bcast tv sid e hentry
    obtain ⟨e2, k, hentry2, hk, hconf, hsent, htimers, hzero, hpos, hT, _⟩ :=
      ih (finaliseSecret po bcast tv sid).2 e1 hentry1
    simp only [finaliseSecrets]
    rcases hcase with ⟨hsec, hconf1, hsent1, htimers1⟩ | ⟨hsec, hconf1, hsent1, htimers1, hT1⟩
    · refine ⟨e2, k, hentry2, ?_, ?_, ?_, ?_, ?_, hpos, ?_, ?_⟩
      · simp only [List.length_cons]; omega
      · rw [hconf, hconf1]
      · rw [hsent, hsent1, hidx]
      · rw [htimers, htimers1, hdur]
      · intro h0
        rw [hzero h0, hsec]
      · intro hk0
        have h := hT hk0
        rw [hdeals, hinfo] at h
        exact h
      · intro rv sec _ hlen hadd hprod
        have hfire := finaliseSecret_fires po bcast tv sid e rv sec hentry hlen hadd hprod
        rw [hsent1] at hfire
        have habs := hfire.2.2.1
        simp at habs
    · refine ⟨e2, k + 1, hentry2, ?_, ?_, ?_, ?_, ?_, ?_, fun _ => hT1,
        fun _ _ _ _ _ _ => Nat.succ_pos k⟩
      · simp only [List.length_cons]; omega
      · rw [hconf, hconf1, Function.iterate_succ_apply]
      · rw [hsent, hsent1, hidx, List.append_assoc, List.replicate_succ]
        rfl
      · rw [htimers, htimers1, hdur, List.append_assoc, List.replicate_succ]
        rfl
      · intro h0
        omega
      · intro _
        rcases Nat.eq_zero_or_pos k with hk0 | hkpos
        · rw [hzero hk0]
          exact hsec
        · exact hpos hkpos

/-- Witness of the amended C10: two calls on node 0, both of which fire. -/
theorem finaliseSecrets_at_most_once_per_call_witness :
    ∃ e1 k, mapGet (finaliseSecrets sumPoly vault1 "TVSS0" [bcastOk, bcastFail]).secrets
        "TVSS0" = some e1 ∧
      k ≤ [bcastOk, bcastFail].length ∧
      e1.numConfs = Nat.iterate incInt k 0 ∧
      (-9223372036854775808 ≤ (0 : Int) → (0 : Int) + k ≤ 9223372036854775807 →
        e1.numConfs = 0 + k) ∧
      (finaliseSecrets sumPoly vault1 "TVSS0" [bcastOk, bcastFail]).sent
        = vault1.sent ++ List.replicate k (Msg.SecConfMsg vault1.index "TVSS0") ∧
      (finaliseSecrets sumPoly vault1 "TVSS0" [bcastOk, bcastFail]).timers
        = vault1.timers ++ List.replicate k ("TVSS0", 2000000000) ∧
      (k = 0 → e1.secret = none) ∧
      (0 < k → ∃ sec, e1.secret = some sec) ∧
      (0 < k → ((1 : Nat) : Int) = vault1.info.T) ∧
      (∀ rv sec, [bcastOk, bcastFail] ≠ [] → ((1 : Nat) : Int) = vault1.info.T →
        addDeals sumPoly vault1.index [] [(0, 5)] = (none, rv) →
        sumPoly.produceSharedSecret rv = .ok sec → 0 < k) :=
  finaliseSecrets_at_most_once_per_call sumPoly [bcastOk, bcastFail] vault1 "TVSS0"
    { secret := none, receiver := [], deals := [(0, 5)], numConfs := 0,
      duration := 2000000000, expired := false }
    (by decide)

/-! ## C11: finaliseSecret sets the shared secret only on a complete, verified entry -/

/-- When the receiver accepts the deals `pre` and rejects the next deal `d`, the loop over
`pre ++ d :: post` ends with an error. -/
theorem addDeals_rejects (po : Poly P S D Rv) (index : Int) (rv : Rv)
    (pre post : List (Int × D)) (d : Int × D)
    (hpre : (addDeals po index rv pre).1 = none)
    (hrej : (po.addDeal (addDeals po index rv pre).2 index d.2).1 ≠ none) :
    (addDeals po index rv (pre ++ d :: post)).1 ≠ none := by
  induction pre generalizing rv with
  | nil =>
    obtain ⟨i, dl⟩ := d
    simp only [addDeals, List.nil_append] at hrej ⊢
    rcases hadd : po.addDeal rv index dl with ⟨err, rv1⟩
    rw [hadd] at hrej
    cases err with
    | none => exact absurd rfl hrej
    | some err => simp
  | cons p pre ih =>
    obtain ⟨i, dl⟩ := p
    simp only [addDeals, List.cons_append] at hpre hrej ⊢
    rcases hadd : po.addDeal rv index dl with ⟨err, rv1⟩
    rw [hadd] at hpre hrej
    cases err with
    | none => exact ih rv1 hpre hrej
    | some err => simp at hpre

/-- C11: finaliseSecret sets the shared secret only when the entry holds T deals and all of
them verify.  For a sid without an entry the call returns an error and changes nothing.
For a sid with an entry, if the number of deals differs from T, or the receiver rejects one
of the deals in the loop (AddDeal fails after the deals before it were accepted), or
ProduceSharedSecret fails on the receiver left by the loop, then the shared secret and the
confirmation count of the entry are unchanged, nothing is broadcast (no SecConf) and no
timer is armed; in the last two cases the call returns the error. -/
theorem finaliseSecret_only_when_complete (po : Poly P S D Rv) (bcast : Msg → Option String)
    (tv : TimeVault P S D Rv) (sid : SID) :
    (mapGet tv.secrets sid = none →
      (finaliseSecret po bcast tv sid).1 = some "Error, shared secret does not exist" ∧
      (finaliseSecret po bcast tv sid).2 = tv) ∧
    (∀ e, mapGet tv.secrets sid = some e →
      ((e.deals.length : Int) ≠ tv.info.T ∨
       (∃ pre d post, e.deals = pre ++ d :: post ∧
          (addDeals po tv.index e.receiver pre).1 = none ∧
          (po.addDeal (addDeals po tv.index e.receiver pre).2 tv.index d.2).1 ≠ none) ∨
       (∃ err, po.produceSharedSecret (addDeals po tv.index e.receiver e.deals).2
          = .error err)) →
      ∃ e1, mapGet (finaliseSecret po bcast tv sid).2.secrets sid = some e1 ∧
        e1.secret = e.secret ∧ e1.numConfs = e.numConfs ∧
        (finaliseSecret po bcast tv sid).2.sent = tv.sent ∧
        (finaliseSecret po bcast tv sid).2.timers = tv.timers ∧
        ((e.deals.length : Int) = tv.info.T → (finaliseSecret po bcast tv sid).1 ≠ none)) := by
  refine ⟨?_, ?_⟩
  · intro habsent
    unfold finaliseSecret
    simp only [habsent]
    exact ⟨trivial, trivial⟩
  · intro e hentry hcond
    unfold finaliseSecret
    simp only [hentry]
    by_cases hT : (e.deals.length : Int) = tv.info.T
    · rw [if_pos hT]
      rcases hadd : addDeals po tv.index e.receiver e.deals with ⟨aerr, rv⟩
      cases aerr with
      | some aerr =>
        exact ⟨_, mapGet_mapSet_self _ _ _, rfl, rfl, rfl, rfl, fun _ => by simp⟩
      | none =>
        simp only
        cases hprod : po.produceSharedSecret rv with
        | error perr =>
          exact ⟨_, mapGet_mapSet_self _ _ _, rfl, rfl, rfl, rfl, fun _ => by simp⟩
        | ok sec =>
          exfalso
          rcases hcond with hne | ⟨pre, d, post, hdeals, hpre, hrej⟩ | ⟨perr, hfail⟩
          · exact hne hT
          · have h := addDeals_rejects po tv.index e.receiver pre post d hpre hrej
            rw [← hdeals, hadd] at h
            exact h rfl
          · rw [hadd] at hfail
            simp only at hfail
            rw [hprod] at hfail
            cases hfail
    · rw [if_neg hT]
      exact ⟨e, hentry, rfl, rfl, rfl, rfl, fun h => absurd h hT⟩

/-- Witness of C11 on node 0: a sid without entry, an entry with one deal of two, an entry
whose deal the receiver rejects, and an entry from whose deal no shared secret is
produced. -/
theorem finaliseSecret_only_when_complete_witness :
    ((finaliseSecret pickyPoly bcastOk vault0 "TVSS0").1
        = some "Error, shared secret does not exist" ∧
      (finaliseSecret pickyPoly bcastOk vault0 "TVSS0").2 = vault0) ∧
    (∃ e1, mapGet (finaliseSecret pickyPoly bcastOk vaultHalf "TVSS0").2.secrets "TVSS0"
        = some e1 ∧
      e1.secret = none ∧ e1.numConfs = 0 ∧
      (finaliseSecret pickyPoly bcastOk vaultHalf "TVSS0").2.sent = vaultHalf.sent ∧
      (finaliseSecret pickyPoly bcastOk vaultHalf "TVSS0").2.timers = vaultHalf.timers) ∧
    (∃ e1, mapGet (finaliseSecret pickyPoly bcastOk vaultBadDeal "TVSS0").2.secrets "TVSS0"
        = some e1 ∧
      e1.secret = none ∧ e1.numConfs = 0 ∧
      (finaliseSecret pickyPoly bcastOk vaultBadDeal "TVSS0").2.sent = vaultBadDeal.sent ∧
      (finaliseSecret pickyPoly bcastOk vaultBadDeal "TVSS0").2.timers = vaultBadDeal.timers ∧
      (finaliseSecret pickyPoly bcastOk vaultBadDeal "TVSS0").1 ≠ none) ∧
    (∃ e1, mapGet (finaliseSecret pickyPoly bcastOk vaultBadShare "TVSS0").2.secrets "TVSS0"
        = some e1 ∧
      e1.secret = none ∧ e1.numConfs = 0 ∧
      (finaliseSecret pickyPoly bcastOk vaultBadShare "TVSS0").2.sent = vaultBadShare.sent ∧
      (finaliseSecret pickyPoly bcastOk vaultBadShare "TVSS0").2.timers
        = vaultBadShare.timers ∧
      (finaliseSecret pickyPoly bcastOk vaultBadShare "TVSS0").1 ≠ none) :=
  have hHalf := (finaliseSecret_only_when_complete pickyPoly bcastOk vaultHalf "TVSS0").2
    { secret := none, receiver := [], deals := [(0, 5)], numConfs := 0,
      duration := 2000000000, expired := false }
    (by decide) (Or.inl (by decide))
  have hDeal := (finaliseSecret_only_when_complete pickyPoly bcastOk vaultBadDeal "TVSS0").2
    { secret := none, receiver := [], deals := [(0, 0)], numConfs := 0,
      duration := 2000000000, expired := false }
    (by decide) (Or.inr (Or.inl ⟨[], (0, 0), [], rfl, rfl, by decide⟩))
  have hShare := (finaliseSecret_only_when_complete pickyPoly bcastOk vaultBadShare "TVSS0").2
    { secret := none, receiver := [], deals := [(0, 300)], numConfs := 0,
      duration := 2000000000, expired := false }
    (by decide) (Or.inr (Or.inr ⟨"share out of range", rfl⟩))
  ⟨(finaliseSecret_only_when_complete pickyPoly bcastOk vault0 "TVSS0").1 (by decide),
    hHalf.imp (fun _ h => ⟨h.1, h.2.1, h.2.2.1, h.2.2.2.1, h.2.2.2.2.1⟩),
    hDeal.imp (fun _ h => ⟨h.1, h.2.1, h.2.2.1, h.2.2.2.1, h.2.2.2.2.1,
      h.2.2.2.2.2 (by decide)⟩),
    hShare.imp (fun _ h => ⟨h.1, h.2.1, h.2.2.1, h.2.2.2.1, h.2.2.2.2.1,
      h.2.2.2.2.2 (by decide)⟩)⟩

end Cothority
